import Mathlib

/-! # pyonerip-go: concurrent segment download and merge

A shallow embedding of the five Go programs of the repository
(`pyonerip.go`, `pyonerip2.go`, ..., `pyonerip5.go`) together with the
properties that hold, or fail, for them.

Conventions of the embedding.

* A Go `string` and a Go `[]byte` are sequences of bytes; a byte is given by
  its numeric value.
* The network is a function from a URL to what `http.Get` and the reading of
  the response body deliver.
* The file system is a map from file names to contents, with oracles that
  say which operations return an error.
* Goroutines become either an explicit completion order (when the program
  waits for all of them before it looks at their results) or an explicit
  transition system (when the interleaving itself is the subject).
-/

namespace Pyonerip

/-! ## Strings and byte slices -/

/-- A Go byte slice: one list element per byte. -/
abbrev Bytes := List Nat

/-- A Go string: an immutable sequence of bytes. -/
abbrev GoString := List Nat

/-- The bytes of an ASCII string literal. -/
def ascii (s : String) : GoString := s.data.map Char.toNat

/-- The byte `'/'`. -/
def slash : Nat := 47

/-- The scan of `strings.LastIndex`: candidate start positions `k-1, k-2, ..., 0`
are tried in this order, and the first position at which `substr` occurs is
returned; `-1` when there is none. -/
def lastIndexFrom (s substr : GoString) : Nat → Int
  | 0 => -1
  | k + 1 =>
    if (s.drop k).take substr.length = substr then (k : Int)
    else lastIndexFrom s substr k

/-- Go `strings.LastIndex(s, substr)`: the index of the last occurrence of
`substr` in `s`, or `-1`. -/
def LastIndex (s substr : GoString) : Int :=
  if substr.length ≤ s.length then lastIndexFrom s substr (s.length - substr.length + 1)
  else -1

/-- Go slice expression `s[lo:]`; `none` stands for the run-time panic
"slice bounds out of range". -/
def sliceFrom (s : GoString) (lo : Int) : Option GoString :=
  if 0 ≤ lo ∧ lo ≤ (s.length : Int) then some (s.drop lo.toNat) else none

/-- The expression `url[strings.LastIndex(url, "/")+1:]` of `downloadFile`
(pyonerip4.go line 34, pyonerip5.go line 26). -/
def filenameOf (url : GoString) : Option GoString :=
  sliceFrom url (LastIndex url [slash] + 1)

/-- Go string comparison `a < b`: byte-wise lexicographic, a proper prefix
being smaller. -/
def strLess : GoString → GoString → Bool
  | [], [] => false
  | [], _ :: _ => true
  | _ :: _, [] => false
  | a :: as, b :: bs => if a < b then true else if b < a then false else strLess as bs

/-- The order `a ≤ b` of Go strings, that is `!(b < a)`. -/
def strLE (a b : GoString) : Prop := strLess b a = false

instance strLE_decidable : DecidableRel strLE := fun a b =>
  inferInstanceAs (Decidable (strLess b a = false))

/-- Go `sort.Strings`: the slice is put in increasing order with respect to
`<` on strings. The order is total and antisymmetric, so the sorted slice does
not depend on the sorting algorithm; insertion sort computes it here. -/
def sortStrings (l : List GoString) : List GoString := l.insertionSort strLE

/-! ## Network -/

/-- What the network does for one URL. -/
inductive Response where
  /-- The request cannot be built (`http.NewRequest` returns an error). -/
  | requestError
  /-- The request cannot be sent or no response arrives (the client returns an error). -/
  | sendError
  /-- A response arrives; reading its body delivers `delivered` and then ends
  with end-of-file, or with an error when `readError` is set. -/
  | body (delivered : Bytes) (readError : Bool)
  deriving DecidableEq

/-- The network: the response to a GET of each URL. -/
abbrev Net := GoString → Response

/-- The payload of a URL whose download succeeds. -/
def fetched (net : Net) (url : GoString) : Option Bytes :=
  match net url with
  | .body delivered false => some delivered
  | _ => none

/-! ## File system -/

/-- Errors returned by the operations of the programs. -/
inductive Err where
  | create (name : GoString)
  | open (name : GoString)
  | read (name : GoString)
  | write (name : GoString)
  /-- Reading a response body failed while it was copied to `target`. -/
  | network (target : GoString)
  /-- `fmt.Errorf("Error creating output file %s: %v", name, cause)`. -/
  | creatingOutput (name : GoString) (cause : Err)
  /-- `fmt.Errorf("Error opening input file %s: %v", name, cause)`. -/
  | openingInput (name : GoString) (cause : Err)
  /-- `fmt.Errorf("Error copying from %s to %s: %v", src, dst, cause)`. -/
  | copying (src dst : GoString) (cause : Err)
  /-- An error of the playlist parser. -/
  | parse
  deriving DecidableEq

/-- The file system: the content of every existing file, and for every name
whether creating, opening, reading or writing that file returns an error. -/
@[ext]
structure FS where
  files : GoString → Option Bytes
  createFails : GoString → Bool
  openFails : GoString → Bool
  readFails : GoString → Bool
  writeFails : GoString → Bool

/-- The file `name` gets the content `c`. -/
def FS.setFile (fs : FS) (name : GoString) (c : Bytes) : FS :=
  { fs with files := fun n => if n = name then some c else fs.files n }

/-- Go `os.Create(name)`: the file is created, or truncated when it exists. -/
def osCreate (fs : FS) (name : GoString) : Except Err FS :=
  if fs.createFails name then .error (.create name) else .ok (fs.setFile name [])

/-- Go `os.Open(name)`: the error returned, if any. -/
def osOpen (fs : FS) (name : GoString) : Option Err :=
  if fs.openFails name || (fs.files name).isNone then some (.open name) else none

/-- Go `f.Write(data)` on a file opened by `os.Create` that no other handle
writes to: the write offset is the end of the file, so the data is appended. -/
def fileWrite (fs : FS) (name : GoString) (data : Bytes) : Except Err FS :=
  if fs.writeFails name then .error (.write name)
  else .ok (fs.setFile name ((fs.files name).getD [] ++ data))

/-- Go `io.Copy(file, resp.Body)`: the bytes the body delivers are written to
the file; the result is the new file system and the error returned. -/
def copyBody (fs : FS) (name : GoString) (delivered : Bytes) (readError : Bool) :
    FS × Option Err :=
  if delivered = [] then (fs, if readError then some (.network name) else none)
  else
    match fileWrite fs name delivered with
    | .error e => (fs, some e)
    | .ok fs1 => (fs1, if readError then some (.network name) else none)

/-- The loop of Go `io.CopyBuffer(dst, src, buf)` with `len(buf) = bufLen`,
`src` read from offset `off`: up to `bufLen` bytes are read and, when there are
some, written to `dst`; the loop ends at end-of-file or at the first error.
`none`: the loop is still running when the fuel is used up. -/
def copyBuffer (bufLen : Nat) : Nat → FS → GoString → GoString → Nat → Option (FS × Option Err)
  | 0, _, _, _, _ => none
  | fuel + 1, fs, dst, src, off =>
    if fs.readFails src then some (fs, some (.read src))
    else
      let chunk := (((fs.files src).getD []).drop off).take bufLen
      if chunk = [] then some (fs, none)
      else
        match fileWrite fs dst chunk with
        | .error e => some (fs, some e)
        | .ok fs1 => copyBuffer bufLen fuel fs1 dst src (off + chunk.length)

/-! ## pyonerip5.go -/

namespace P5

/-- The name of the output file in `main`. -/
def outputName : GoString := ascii "output.ts"

/-- `downloadFile(url, wg, ch)`: the new file system and the filename sent on
`ch`, if one is sent. `none`: the goroutine panics. -/
def downloadFile (net : Net) (fs : FS) (url : GoString) : Option (FS × Option GoString) :=
  match net url with
  | .requestError => some (fs, none)
  | .sendError => some (fs, none)
  | .body delivered readError =>
    match filenameOf url with
    | none => none
    | some filename =>
      match osCreate fs filename with
      | .error _ => some (fs, none)
      | .ok fs1 =>
        match copyBody fs1 filename delivered readError with
        | (fs2, some _) => some (fs2, none)
        | (fs2, none) => some (fs2, some filename)

/-- The loop of `mergeFiles` over the sorted filenames. -/
def mergeLoop (fuel : Nat) (outputFilename : GoString) :
    FS → List GoString → Option (FS × Option Err)
  | fs, [] => some (fs, none)
  | fs, filename :: rest =>
    match osOpen fs filename with
    | some e => some (fs, some e)
    | none =>
      match copyBuffer (32 * 1024) fuel fs outputFilename filename 0 with
      | none => none
      | some (fs1, some e) => some (fs1, some e)
      | some (fs1, none) => mergeLoop fuel outputFilename fs1 rest

/-- `mergeFiles(filenames, outputFilename)`: the new file system and the error
returned (`none` for `nil`). The outer `none`: a copy loop is still running
when the fuel is used up. -/
def mergeFiles (fuel : Nat) (fs : FS) (filenames : List GoString) (outputFilename : GoString) :
    Option (FS × Option Err) :=
  match osCreate fs outputFilename with
  | .error e => some (fs, some e)
  | .ok fs1 => mergeLoop fuel outputFilename fs1 (sortStrings filenames)

/-- The download goroutines in the order in which they run to completion:
the file system they leave and the content of `filenameCh`, whose capacity
`len(fileUrls)` lets every send go through. Each goroutine is one step:
goroutines with different filenames touch different files, so that their
interleaving does not show, and a run in which the goroutines follow one
another is one of the runs of the program. -/
def downloads (net : Net) : FS → List GoString → List GoString → Option (FS × List GoString)
  | fs, ch, [] => some (fs, ch)
  | fs, ch, url :: rest =>
    match downloadFile net fs url with
    | none => none
    | some (fs1, sent) => downloads net fs1 (ch ++ sent.toList) rest

/-- The URLs of the goroutines in completion order, `order` listing the
indices of the goroutines. -/
def completionSeq (fileUrls : List GoString) (order : List Nat) : List GoString :=
  order.filterMap (fun i => fileUrls[i]?)

/-- `main` with the URL list as parameter: all goroutines run to completion
(`wg.Wait()`), in the order `order`; the channel is closed and drained, and the
filenames are merged. The result is the final file system. -/
def main (fuel : Nat) (net : Net) (fs : FS) (fileUrls : List GoString) (order : List Nat) :
    Option FS :=
  match downloads net fs [] (completionSeq fileUrls order) with
  | none => none
  | some (fs1, filenames) => (mergeFiles fuel fs1 filenames outputName).map Prod.fst

end P5

/-! ## pyonerip4.go -/

namespace P4

/-- The loop of `mergeFiles` over the sorted filenames. -/
def mergeLoop (fuel : Nat) (outputFilename : GoString) :
    FS → List GoString → Option (FS × Option Err)
  | fs, [] => some (fs, none)
  | fs, filename :: rest =>
    match osOpen fs filename with
    | some e => some (fs, some (.openingInput filename e))
    | none =>
      match copyBuffer (32 * 1024) fuel fs outputFilename filename 0 with
      | none => none
      | some (fs1, some e) => some (fs1, some (.copying filename outputFilename e))
      | some (fs1, none) => mergeLoop fuel outputFilename fs1 rest

/-- `mergeFiles(filenames, outputFilename)` of pyonerip4.go: as in pyonerip5.go,
with each error wrapped by `fmt.Errorf`. -/
def mergeFiles (fuel : Nat) (fs : FS) (filenames : List GoString) (outputFilename : GoString) :
    Option (FS × Option Err) :=
  match osCreate fs outputFilename with
  | .error e => some (fs, some (.creatingOutput outputFilename e))
  | .ok fs1 => mergeLoop fuel outputFilename fs1 (sortStrings filenames)

end P4

/-- What `mergeFiles` needs of an input file: it exists, opening and reading
it return no error, and the fuel exceeds its length. -/
def readable (fuel : Nat) (fs : FS) (f : GoString) : Prop :=
  fs.openFails f = false ∧ fs.readFails f = false ∧ (fs.files f).isSome = true ∧
    ((fs.files f).getD []).length < fuel

instance readable_decidable (fuel : Nat) (fs : FS) (f : GoString) :
    Decidable (readable fuel fs f) := by
  unfold readable; infer_instance

/-- A file system without files in which no operation fails. -/
def emptyFS : FS :=
  { files := fun _ => none
    createFails := fun _ => false
    openFails := fun _ => false
    readFails := fun _ => false
    writeFails := fun _ => false }

/-- The filename that `downloadFile` derives from a URL. -/
def fname (url : GoString) : GoString := (filenameOf url).getD []

/-- The payload of a URL: what a successful download of it delivers. -/
def payload (net : Net) (url : GoString) : Bytes := (fetched net url).getD []

/-- The download of `url` by `downloadFile` succeeds: the response arrives and
is read to its end, and the file named after the URL can be created and
written. -/
def downloadSucceeds (net : Net) (fs : FS) (url : GoString) : Prop :=
  (fetched net url).isSome = true ∧ fs.createFails (fname url) = false ∧
    fs.writeFails (fname url) = false

instance downloadSucceeds_decidable (net : Net) (fs : FS) (url : GoString) :
    Decidable (downloadSucceeds net fs url) := by
  unfold downloadSucceeds; infer_instance

/-- A natural number written in decimal, without padding. -/
def decimal (k : Nat) : GoString := (Nat.toDigits 10 k).map Char.toNat

/-- The filename of the segment with 0-based index `i`: `file<i+1>.ts`. -/
def segmentName (i : Nat) : GoString := ascii "file" ++ decimal (i + 1) ++ ascii ".ts"

/-- A URL that ends in `/file<i+1>.ts`, as the URLs in `main` do. -/
def segmentUrl (base : Nat → GoString) (i : Nat) : GoString :=
  base i ++ ascii "/" ++ segmentName i

/-- The network that answers the URLs of a table with the payload given there
and fails for every other URL. -/
def netOf (table : List (GoString × Bytes)) : Net := fun u =>
  match table.lookup u with
  | some d => .body d false
  | none => .sendError

/-- The URL list of `main`, continued to `n` segments:
`http://example.com/file1.ts`, ..., `http://example.com/file<n>.ts`. -/
def exampleUrls (n : Nat) : List GoString :=
  (List.range n).map (segmentUrl (fun _ => ascii "http://example.com"))

/-- A network in which the segment with index `i` of `exampleUrls` has the
one-byte payload `i`. -/
def exampleNet (n : Nat) : Net :=
  netOf ((List.range n).map (fun i => (segmentUrl (fun _ => ascii "http://example.com") i, [i])))

/-! ## pyonerip3.go -/

/-- The type `tsFile`: a buffer and the index of the segment. -/
structure tsFile where
  buf : Bytes
  index : Nat
  deriving DecidableEq

namespace P3

/-- `downloadTsFile(url, wg, index, tsFilesCh)`: the value sent on
`tsFilesCh`; nothing is sent when `http.Get` or `io.Copy` returns an error. -/
def downloadTsFile (net : Net) (url : GoString) (index : Nat) : Option tsFile :=
  match net url with
  | .requestError => none
  | .sendError => none
  | .body delivered readError =>
    if readError then none else some { buf := delivered, index := index }

/-- The loop of `combineTsFiles`: each buffer is written to the file. -/
def writeAll (outFile : GoString) : FS → List tsFile → FS × Option Err
  | fs, [] => (fs, none)
  | fs, t :: rest =>
    match fileWrite fs outFile t.buf with
    | .error e => (fs, some e)
    | .ok fs1 => writeAll outFile fs1 rest

/-- `combineTsFiles(tsFiles, outFile)`: the new file system and the error
returned (`none` for `nil`). -/
def combineTsFiles (fs : FS) (tsFiles : List tsFile) (outFile : GoString) : FS × Option Err :=
  match osCreate fs outFile with
  | .error e => (fs, some e)
  | .ok fs1 => writeAll outFile fs1 tsFiles

/-- The content of `tsFilesCh` after `wg.Wait()`: the goroutines, listed by
index in `order`, have run to completion in this order, and the capacity
`len(tsFiles)` of the channel lets every send go through. -/
def received (net : Net) (tsFiles : List GoString) (order : List Nat) : List tsFile :=
  order.filterMap (fun i => (tsFiles[i]?).bind (fun url => downloadTsFile net url i))

/-- `downloadAndCombine(m3u8Url, outFile)`. The playlist parser `parseM3u8` is
not part of the repository and is a parameter. -/
def downloadAndCombine (parseM3u8 : GoString → Except Err (List GoString)) (net : Net) (fs : FS)
    (order : List Nat) (m3u8Url outFile : GoString) : FS × Option Err :=
  match parseM3u8 m3u8Url with
  | .error e => (fs, some e)
  | .ok tsFiles => combineTsFiles fs (received net tsFiles order) outFile

end P3

/-! ## pyonerip.go -/

namespace P1

/-- The constant `maxConcurrency`: the capacity of the channel `semaphore`. -/
def maxConcurrency : Nat := 10

/-- The constant `bufferSize`: the capacity of the channel `dataChan`. -/
def bufferSize : Nat := 10

/-- Where a download goroutine stands. -/
inductive Pc where
  /-- Before `semaphore <- struct{}{}`. -/
  | start
  /-- The slot is acquired; `http.Get` and `io.ReadAll` have not returned. -/
  | acquired
  /-- `io.ReadAll` has returned `data`; before `dataChan <- data`. -/
  | fetched (data : Bytes)
  /-- The data is sent; before the deferred `<-semaphore`. -/
  | sent
  /-- The slot is released; before the deferred `wg.Done()`. -/
  | released
  /-- The goroutine has ended. -/
  | done
  deriving DecidableEq

/-- The goroutine has acquired a slot of the semaphore and not yet released it. -/
def Pc.holding : Pc → Bool
  | .acquired => true
  | .fetched _ => true
  | .sent => true
  | _ => false

/-- Where `main` stands. -/
inductive MainPc where
  /-- In the loop that launches the goroutines. -/
  | launching
  /-- In the loop `for data := range dataChan`, `output.ts` being created. -/
  | writing
  /-- `main` has returned. -/
  | returned
  deriving DecidableEq

/-- A state of the program. -/
structure State where
  /-- The number of download goroutines launched so far. -/
  spawned : Nat
  /-- The position of each download goroutine, by index of its URL. -/
  pcs : List Pc
  /-- The number of elements in the channel `semaphore`. -/
  sem : Nat
  /-- The elements buffered in `dataChan`, the oldest first. -/
  dataChan : List Bytes
  /-- The channel `dataChan` is closed. -/
  closed : Bool
  mainPc : MainPc
  /-- The content of `output.ts` once `main` has created it. -/
  output : Option Bytes
  /-- The process has ended abnormally: `log.Fatal`, or a run-time panic. -/
  exited : Bool
  deriving DecidableEq

/-- The atomic steps of the goroutines. -/
inductive Event where
  /-- `main` launches the next download goroutine (`wg.Add(1); go func...`). -/
  | spawn
  /-- Goroutine `i` sends on `semaphore`. -/
  | acquire (i : Nat)
  /-- Goroutine `i` gets the result of `http.Get` and `io.ReadAll`. -/
  | fetch (i : Nat)
  /-- Goroutine `i` sends its data on `dataChan`. -/
  | send (i : Nat)
  /-- Goroutine `i` receives from `semaphore` (deferred). -/
  | release (i : Nat)
  /-- Goroutine `i` calls `wg.Done()` (deferred) and ends. -/
  | wgDone (i : Nat)
  /-- `main` leaves the launching loop, launches the goroutine that waits and
  closes, and calls `os.Create("output.ts")`. -/
  | create
  /-- The waiting goroutine returns from `wg.Wait()` and closes `dataChan`. -/
  | closeChan
  /-- `main` receives one element from `dataChan` and writes it. -/
  | receive
  /-- `main` finds `dataChan` closed and empty, leaves the loop and returns. -/
  | finish
  deriving DecidableEq

/-- The initial state for `n` URLs. -/
def init (n : Nat) : State :=
  { spawned := 0, pcs := List.replicate n Pc.start, sem := 0, dataChan := [], closed := false,
    mainPc := .launching, output := none, exited := false }

/-- One step of the program; `none` when the step is not enabled in the
state. `createFails` and `writeFails` say whether `os.Create` and
`outputFile.Write` return an error. -/
def step (net : Net) (createFails writeFails : Bool) (urls : List GoString) (s : State) :
    Event → Option State
  | .spawn =>
    if s.exited = false ∧ s.mainPc = .launching ∧ s.spawned < urls.length then
      some { s with spawned := s.spawned + 1 }
    else none
  | .acquire i =>
    if s.exited = false ∧ s.mainPc ≠ .returned ∧ i < s.spawned ∧ s.pcs[i]? = some .start ∧
        s.sem < maxConcurrency then
      some { s with pcs := s.pcs.set i .acquired, sem := s.sem + 1 }
    else none
  | .fetch i =>
    if s.exited = false ∧ s.mainPc ≠ .returned ∧ s.pcs[i]? = some .acquired then
      match (urls[i]?).bind (fetched net) with
      | some data => some { s with pcs := s.pcs.set i (.fetched data) }
      | none => some { s with exited := true }
    else none
  | .send i =>
    if s.exited = false ∧ s.mainPc ≠ .returned ∧ s.dataChan.length < bufferSize then
      match s.pcs[i]? with
      | some (.fetched data) =>
        if s.closed then some { s with exited := true }
        else some { s with pcs := s.pcs.set i .sent, dataChan := s.dataChan ++ [data] }
      | _ => none
    else none
  | .release i =>
    if s.exited = false ∧ s.mainPc ≠ .returned ∧ s.pcs[i]? = some .sent ∧ 0 < s.sem then
      some { s with pcs := s.pcs.set i .released, sem := s.sem - 1 }
    else none
  | .wgDone i =>
    if s.exited = false ∧ s.mainPc ≠ .returned ∧ s.pcs[i]? = some .released then
      some { s with pcs := s.pcs.set i .done }
    else none
  | .create =>
    if s.exited = false ∧ s.mainPc = .launching ∧ s.spawned = urls.length then
      if createFails then some { s with exited := true }
      else some { s with mainPc := .writing, output := some [] }
    else none
  | .closeChan =>
    if s.exited = false ∧ s.mainPc ≠ .returned ∧ s.spawned = urls.length ∧ s.closed = false ∧
        s.pcs.all (fun pc => pc = .done) then
      some { s with closed := true }
    else none
  | .receive =>
    if s.exited = false ∧ s.mainPc = .writing then
      match s.dataChan with
      | [] => none
      | data :: rest =>
        if writeFails then some { s with dataChan := rest, exited := true }
        else some { s with dataChan := rest, output := some (s.output.getD [] ++ data) }
    else none
  | .finish =>
    if s.exited = false ∧ s.mainPc = .writing ∧ s.closed = true ∧ s.dataChan = [] then
      some { s with mainPc := .returned }
    else none

/-- A run: the steps of a schedule, one after the other; `none` when a step
of the schedule is not enabled. -/
def run (net : Net) (createFails writeFails : Bool) (urls : List GoString) :
    State → List Event → Option State
  | s, [] => some s
  | s, e :: rest =>
    match step net createFails writeFails urls s e with
    | none => none
    | some s1 => run net createFails writeFails urls s1 rest

/-- The number of goroutines that hold a slot of the semaphore. -/
def active (s : State) : Nat := s.pcs.countP Pc.holding

/-- The indices of the goroutines in the order of their sends on `dataChan`. -/
def sendOrder : List Event → List Nat
  | [] => []
  | .send i :: rest => i :: sendOrder rest
  | _ :: rest => sendOrder rest

/-- The data that goroutine `i` reads when its download succeeds. -/
def dataOf (net : Net) (urls : List GoString) (i : Nat) : Bytes :=
  ((urls[i]?).bind (fetched net)).getD []

/-- The relation between a state and the sends made so far, listed by index
of the goroutine in `sent`: what is written and what is buffered is, in this
order, the data of the goroutines in the order of their sends. -/
def outputInv (net : Net) (urls : List GoString) (sent : List Nat) (s : State) : Prop :=
  (s.mainPc = .returned → s.exited = false ∧ s.dataChan = []) ∧
  (s.exited = false →
    (∀ (i : Nat) (d : Bytes), s.pcs[i]? = some (Pc.fetched d) →
      (urls[i]?).bind (fetched net) = some d) ∧
    s.output.getD [] ++ s.dataChan.flatten = (sent.map (dataOf net urls)).flatten ∧
    (s.mainPc = .launching → s.output = none) ∧
    (s.mainPc ≠ .launching → s.output.isSome = true))

/-- A schedule for two URLs in which the goroutines run one after the other,
`first` before `second`, and `main` writes what they sent. -/
def sequentialSchedule (first second : Nat) : List Event :=
  [.spawn, .spawn,
   .acquire first, .fetch first, .send first, .release first, .wgDone first,
   .acquire second, .fetch second, .send second, .release second, .wgDone second,
   .create, .closeChan, .receive, .receive, .finish]

/-- A schedule for eleven URLs: all goroutines are launched and the first ten
acquire a slot. -/
def fullSchedule : List Event :=
  List.replicate 11 Event.spawn ++ (List.range 10).map Event.acquire

/-- A schedule for two URLs in which the two downloads overlap; goroutine 0
sends first. -/
def overlappingSchedule : List Event :=
  [.spawn, .spawn, .acquire 0, .acquire 1, .fetch 1, .fetch 0, .send 0, .send 1, .create,
   .receive, .release 1, .release 0, .wgDone 0, .wgDone 1, .closeChan, .receive, .finish]

/-- The state in which `main` has returned, for two URLs, with the given
content of `output.ts`. -/
def finalState (written : Bytes) : State :=
  { spawned := 2, pcs := [.done, .done], sem := 0, dataChan := [], closed := true,
    mainPc := .returned, output := some written, exited := false }

end P1

/-! ## pyonerip4.go: `main` -/

namespace P4

/-- `downloadFile(url, wg, ch)` of pyonerip4.go: the new file system and the
filename to send on `ch`, if there is one. `none`: the slice expression
panics. -/
def downloadFile (net : Net) (fs : FS) (url : GoString) : Option (FS × Option GoString) :=
  match net url with
  | .requestError => some (fs, none)
  | .sendError => some (fs, none)
  | .body delivered readError =>
    match filenameOf url with
    | none => none
    | some filename =>
      match osCreate fs filename with
      | .error _ => some (fs, none)
      | .ok fs1 =>
        match copyBody fs1 filename delivered readError with
        | (fs2, some _) => some (fs2, none)
        | (fs2, none) => some (fs2, some filename)

/-- The next statement of the body of the loop in `main`. -/
inductive Phase where
  /-- `wg.Add(1); go downloadFile(fileUrl, &wg, filenameCh)`. -/
  | launch
  /-- `close(filenameCh)`. -/
  | close
  /-- The loop over `filenameCh`, then `mergeFiles`. -/
  | collect
  deriving DecidableEq

/-- A state of `main` and its goroutines. -/
structure State where
  /-- The index of the current iteration of the loop over `fileUrls`. -/
  next : Nat
  phase : Phase
  /-- The elements buffered in `filenameCh`, the oldest first. -/
  filenameCh : List GoString
  /-- The channel `filenameCh` is closed. -/
  closed : Bool
  /-- The download goroutines that are launched and have not run yet. -/
  pending : List Nat
  /-- The filename lists passed to `mergeFiles` so far. -/
  merged : List (List GoString)
  fs : FS

/-- How far a run has come. -/
inductive Outcome where
  | running (s : State)
  /-- `main` panics: close of closed channel. -/
  | closePanic (s : State)
  /-- Goroutine `i` panics: send on closed channel. -/
  | sendPanic (i : Nat) (s : State)
  /-- `mergeFiles` returned an error and `main` returned. -/
  | mergeError (e : Err) (s : State)
  /-- The loop over `fileUrls` is over and `main` has returned. -/
  | completed (s : State)

/-- The steps of a schedule: the next statement of `main`, or the whole body
of a launched download goroutine. -/
inductive Event where
  | main
  | worker (i : Nat)
  deriving DecidableEq

/-- The state in which `main` enters the loop. -/
def init (fs : FS) : State :=
  { next := 0, phase := .launch, filenameCh := [], closed := false, pending := [], merged := [],
    fs := fs }

/-- One step; `none` when the step is not enabled, or when the fuel of
`mergeFiles` is used up. -/
def step (fuel : Nat) (net : Net) (fileUrls : List GoString) (s : State) :
    Event → Option Outcome
  | .main =>
    match s.phase with
    | .launch =>
      if s.next < fileUrls.length then
        some (.running { s with pending := s.pending ++ [s.next], phase := .close })
      else some (.completed s)
    | .close =>
      if s.closed then some (.closePanic s)
      else some (.running { s with closed := true, phase := .collect })
    | .collect =>
      match mergeFiles fuel s.fs s.filenameCh (ascii "output.ts") with
      | none => none
      | some (fs1, some e) =>
        some (.mergeError e { s with fs := fs1, filenameCh := [],
                                     merged := s.merged ++ [s.filenameCh] })
      | some (fs1, none) =>
        some (.running { s with fs := fs1, filenameCh := [],
                                merged := s.merged ++ [s.filenameCh],
                                next := s.next + 1, phase := .launch })
  | .worker i =>
    if i ∈ s.pending then
      match (fileUrls[i]?).bind (downloadFile net s.fs) with
      | none => none
      | some (fs1, none) => some (.running { s with fs := fs1, pending := s.pending.erase i })
      | some (fs1, some filename) =>
        if s.closed then some (.sendPanic i { s with fs := fs1, pending := s.pending.erase i })
        else some (.running { s with fs := fs1, pending := s.pending.erase i,
                                     filenameCh := s.filenameCh ++ [filename] })
    else none

/-- A run of a schedule, up to the first step that ends the program. -/
def run (fuel : Nat) (net : Net) (fileUrls : List GoString) : State → List Event → Option Outcome
  | s, [] => some (.running s)
  | s, e :: rest =>
    match step fuel net fileUrls s e with
    | some (.running s1) => run fuel net fileUrls s1 rest
    | other => other

/-- What a run shows of its outcome: the kind of outcome, the number of
loop iterations begun, the filename lists passed to `mergeFiles`, and the
goroutines still to run. -/
inductive Summary where
  | running (next : Nat) (merged : List (List GoString)) (pending : List Nat)
  | closePanic (next : Nat) (merged : List (List GoString)) (pending : List Nat)
  | sendPanic (i : Nat) (merged : List (List GoString))
  | mergeError
  | completed
  deriving DecidableEq

/-- The summary of an outcome. -/
def Outcome.summary : Outcome → Summary
  | .running s => .running s.next s.merged s.pending
  | .closePanic s => .closePanic s.next s.merged s.pending
  | .sendPanic i s => .sendPanic i s.merged
  | .mergeError _ _ => .mergeError
  | .completed _ => .completed

/-- The outcome is the normal end of `main`. -/
def Outcome.isCompleted : Outcome → Bool
  | .completed _ => true
  | _ => false

/-- The invariant of the states of `main` for two or more URLs: the loop is
in its first iteration, or at the start of the second with the channel closed. -/
def early (s : State) : Prop :=
  (s.next = 0 ∧ (s.phase = .collect → s.closed = true)) ∨
  (s.next = 1 ∧ s.closed = true ∧ s.phase ≠ .collect)

end P4

/-! ## pyonerip2.go -/

namespace P2

/-- The constant `tsFilePrefix`. -/
def tsFilePrefix : GoString := ascii "https://example.com/"

/-- Go `strings.HasPrefix(s, p)`. -/
def HasPrefix (s p : GoString) : Bool := p.isPrefixOf s

/-- The calls on the wait group and the content written to the output file. -/
structure State where
  /-- The number of calls `wg.Add(1)`. -/
  adds : Nat
  /-- The number of calls `wg.Done()`. -/
  dones : Nat
  outfile : Bytes
  deriving DecidableEq

/-- One unit of work of a worker, the body of `for url := range urls`: the
new content of the output file and whether `wg.Done()` is reached. `writeFails`
says whether writing to the output file returns an error. -/
def work (net : Net) (writeFails : Bool) (outfile : Bytes) (url : GoString) : Bytes × Bool :=
  match net url with
  | .requestError => (outfile, false)
  | .sendError => (outfile, false)
  | .body delivered readError =>
    if delivered ≠ [] ∧ writeFails = true then (outfile, false)
    else if readError then (outfile ++ delivered, false)
    else (outfile ++ delivered, true)

/-- `main` from the scan of the playlist on, with the lines of the playlist
as parameter: each line that is a segment URL is sent to a worker and counted
by `wg.Add(1)`, and the worker that receives it does one unit of work. The
units are taken in the order of dispatch; the counts do not depend on how
they overlap. -/
def main (net : Net) (writeFails : Bool) (lines : List GoString) : State :=
  (lines.filter (fun line => HasPrefix line tsFilePrefix)).foldl
    (fun st url =>
      { adds := st.adds + 1
        dones := st.dones + (if (work net writeFails st.outfile url).2 then 1 else 0)
        outfile := (work net writeFails st.outfile url).1 })
    { adds := 0, dones := 0, outfile := [] }

/-- The counter of the wait group once every submitted URL is processed. -/
def wgCounter (st : State) : Int := (st.adds : Int) - (st.dones : Int)

/-- `wg.Wait()` returns: the counter is zero. -/
def waitReturns (st : State) : Bool := decide (wgCounter st = 0)

end P2

/-! # Properties -/

/-! ## Filename derivation -/

theorem lastIndexFrom_byte (s : GoString) (c : Nat) :
    ∀ k, k ≤ s.length →
      (lastIndexFrom s [c] k = -1 ∧ ∀ i, i < k → s[i]? ≠ some c) ∨
      (∃ r : Nat, lastIndexFrom s [c] k = (r : Int) ∧ r < k ∧ s[r]? = some c ∧
        ∀ i, r < i → i < k → s[i]? ≠ some c) := by
  intro k
  induction k with
  | zero => intro _; left; exact ⟨rfl, fun i hi => absurd hi (Nat.not_lt_zero i)⟩
  | succ k ih =>
    intro hk
    have hklt : k < s.length := hk
    have hdrop : (s.drop k).take 1 = [s[k]] := by
      rw [List.drop_eq_getElem_cons hklt]; rfl
    have hget : s[k]? = some s[k] := List.getElem?_eq_getElem hklt
    by_cases hc : s[k] = c
    · right
      refine ⟨k, ?_, Nat.lt_succ_self k, ?_, ?_⟩
      · simp [lastIndexFrom, hdrop, hc]
      · rw [hget, hc]
      · intro i h1 h2; omega
    · have hstep : lastIndexFrom s [c] (k + 1) = lastIndexFrom s [c] k := by
        simp [lastIndexFrom, hdrop, hc]
      have hk_ne : s[k]? ≠ some c := by
        rw [hget]; intro h; exact hc (Option.some.inj h)
      rcases ih (Nat.le_of_lt hklt) with ⟨h1, h2⟩ | ⟨r, h1, h2, h3, h4⟩
      · left
        refine ⟨hstep.trans h1, ?_⟩
        intro i hi
        rcases Nat.lt_succ_iff_lt_or_eq.mp hi with h | h
        · exact h2 i h
        · rw [h]; exact hk_ne
      · right
        refine ⟨r, hstep.trans h1, Nat.lt_succ_of_lt h2, h3, ?_⟩
        intro i hi1 hi2
        rcases Nat.lt_succ_iff_lt_or_eq.mp hi2 with h | h
        · exact h4 i hi1 h
        · rw [h]; exact hk_ne

theorem LastIndex_byte (s : GoString) (c : Nat) :
    (LastIndex s [c] = -1 ∧ c ∉ s) ∨
    (∃ r : Nat, LastIndex s [c] = (r : Int) ∧ r < s.length ∧ s[r]? = some c ∧
      c ∉ s.drop (r + 1)) := by
  by_cases hlen : 1 ≤ s.length
  · have hL : LastIndex s [c] = lastIndexFrom s [c] s.length := by
      simp only [LastIndex, List.length_singleton, if_pos hlen]
      rw [Nat.sub_add_cancel hlen]
    rcases lastIndexFrom_byte s c s.length (Nat.le_refl _) with ⟨h1, h2⟩ | ⟨r, h1, h2, h3, h4⟩
    · left
      refine ⟨hL.trans h1, ?_⟩
      intro hmem
      obtain ⟨i, hi, hget⟩ := List.getElem_of_mem hmem
      exact h2 i hi (by rw [List.getElem?_eq_getElem hi, hget])
    · right
      refine ⟨r, hL.trans h1, h2, h3, ?_⟩
      intro hmem
      obtain ⟨j, hj, hget⟩ := List.getElem_of_mem hmem
      rw [List.getElem_drop] at hget
      rw [List.length_drop] at hj
      have hlt : r + 1 + j < s.length := by omega
      exact h4 (r + 1 + j) (by omega) hlt (by rw [List.getElem?_eq_getElem hlt, hget])
  · left
    have h0 : s = [] := List.length_eq_zero.mp (by omega)
    subst h0
    exact ⟨rfl, by simp⟩

/-- C10: the filename derivation `url[strings.LastIndex(url, "/")+1:]` is total:
for every string the slice start lies in `[0, len(url)]`, so the slice
expression never panics, and the result is the longest suffix of `url` without
a `'/'`: all of `url` when `url` has no `'/'`, and the empty string when `url`
ends in `'/'`. -/
theorem filenameOf_total_last_component (url : GoString) :
    0 ≤ LastIndex url [slash] + 1 ∧ LastIndex url [slash] + 1 ≤ (url.length : Int) ∧
    ∃ name, filenameOf url = some name ∧ name <:+ url ∧ slash ∉ name ∧
      (∀ t, t <:+ url → slash ∉ t → t.length ≤ name.length) ∧
      (slash ∉ url → name = url) ∧
      (url.getLast? = some slash → name = []) := by
  rcases LastIndex_byte url slash with ⟨h1, h2⟩ | ⟨r, h1, h2, h3, h4⟩
  · refine ⟨by omega, by omega, url, ?_, List.suffix_refl url, h2, ?_, fun _ => rfl, ?_⟩
    · simp [filenameOf, sliceFrom, h1]
    · intro t ht _; exact ht.length_le
    · intro hlast
      exact absurd (List.mem_of_getLast?_eq_some hlast) h2
  · have hmemr : slash ∈ url := List.getElem?_mem h3
    refine ⟨by omega, by omega, url.drop (r + 1), ?_, List.drop_suffix _ _, h4, ?_,
      fun h => absurd hmemr h, ?_⟩
    · have hb : (0 : Int) ≤ (r : Int) + 1 ∧ (r : Int) + 1 ≤ (url.length : Int) := by omega
      have hn : ((r : Int) + 1).toNat = r + 1 := by omega
      simp only [filenameOf, sliceFrom, h1, if_pos hb, hn]
    · intro t ht hnot
      by_contra hlt
      rw [List.length_drop] at hlt
      have htd : t = url.drop (url.length - t.length) := List.suffix_iff_eq_drop.mp ht
      have hle : t.length ≤ url.length := ht.length_le
      apply hnot
      rw [htd]
      have hidx : r - (url.length - t.length) < (url.drop (url.length - t.length)).length := by
        rw [List.length_drop]; omega
      have hget : (url.drop (url.length - t.length))[r - (url.length - t.length)]? = some slash := by
        rw [List.getElem?_drop]
        have : url.length - t.length + (r - (url.length - t.length)) = r := by omega
        rw [this]; exact h3
      exact List.getElem?_mem hget
    · intro hlast
      by_contra hne
      have hne2 : url.drop (r + 1) ≠ [] := hne
      have hl : (url.drop (r + 1)).getLast? = some slash := by
        rw [List.getLast?_drop]
        have : ¬ url.length ≤ r + 1 := by
          intro hle
          exact hne2 (List.drop_eq_nil_of_le hle)
        simp [this, hlast]
      exact h4 (List.mem_of_getLast?_eq_some hl)

/-! ## The order of strings and `sort.Strings` -/

theorem strLess_asymm : ∀ a b : GoString, strLess a b = true → strLess b a = false
  | [], [], h => by simp [strLess] at h
  | [], _ :: _, _ => by simp [strLess]
  | _ :: _, [], h => by simp [strLess] at h
  | x :: xs, y :: ys, h => by
    simp only [strLess] at h ⊢
    by_cases h1 : x < y
    · have h2 : ¬ y < x := by omega
      simp [h1, h2]
    · by_cases h2 : y < x
      · simp [h1, h2] at h
      · simp only [h1, h2, if_false] at h ⊢
        exact strLess_asymm xs ys h

theorem strLess_antisymm : ∀ a b : GoString, strLess a b = false → strLess b a = false → a = b
  | [], [], _, _ => rfl
  | [], _ :: _, h, _ => by simp [strLess] at h
  | _ :: _, [], _, h => by simp [strLess] at h
  | x :: xs, y :: ys, h, h' => by
    simp only [strLess] at h h'
    by_cases h1 : x < y
    · simp [h1] at h
    · by_cases h2 : y < x
      · simp [h2] at h'
      · simp only [h1, h2, if_false] at h h'
        have hxy : x = y := by omega
        rw [hxy, strLess_antisymm xs ys h h']

theorem strLess_trans : ∀ a b c : GoString, strLess a b = true → strLess b c = true →
    strLess a c = true
  | [], _, [], _, h => by cases ‹GoString› <;> simp [strLess] at h
  | [], _, _ :: _, _, _ => by simp [strLess]
  | _ :: _, [], _, h, _ => by simp [strLess] at h
  | _ :: _, _ :: _, [], _, h => by simp [strLess] at h
  | x :: xs, y :: ys, z :: zs, h, h' => by
    simp only [strLess] at h h' ⊢
    by_cases h1 : x < y
    · by_cases h2 : y < z
      · have : x < z := by omega
        simp [this]
      · by_cases h3 : z < y
        · simp [h2, h3] at h'
        · have : x < z := by omega
          simp [this]
    · by_cases h1' : y < x
      · simp [h1, h1'] at h
      · simp only [h1, h1', if_false] at h
        have hxy : x = y := by omega
        subst hxy
        by_cases h2 : x < z
        · simp [h2]
        · by_cases h3 : z < x
          · simp [h2, h3] at h'
          · simp only [h2, h3, if_false] at h' ⊢
            exact strLess_trans xs ys zs h h'

theorem strLE_total (a b : GoString) : strLE a b ∨ strLE b a := by
  unfold strLE
  cases h : strLess b a
  · exact Or.inl rfl
  · exact Or.inr (strLess_asymm b a h)

theorem strLE_trans {a b c : GoString} (h1 : strLE a b) (h2 : strLE b c) : strLE a c := by
  unfold strLE at *
  cases h : strLess c a
  · rfl
  · -- c < a, a ≤ b, so c < b or ..., contradiction with b ≤ c
    exfalso
    cases hab : strLess a b
    · have : a = b := strLess_antisymm a b hab h1
      subst this
      rw [h] at h2; cases h2
    · have := strLess_trans c a b h hab
      rw [this] at h2; cases h2

theorem sortStrings_perm (l : List GoString) : (sortStrings l).Perm l :=
  List.perm_insertionSort _ l
theorem sortStrings_sorted (l : List GoString) : (sortStrings l).Sorted strLE := by
  haveI : IsTotal GoString strLE := ⟨strLE_total⟩
  haveI : IsTrans GoString strLE := ⟨fun _ _ _ => strLE_trans⟩
  exact List.sorted_insertionSort _ l
theorem sortStrings_unique {l s : List GoString} (hs : s.Sorted strLE) (hp : s.Perm l) :
    s = sortStrings l := by
  haveI : IsAntisymm GoString strLE := ⟨fun a b h1 h2 => strLess_antisymm a b h2 h1⟩
  exact List.eq_of_perm_of_sorted (hp.trans (sortStrings_perm l).symm) hs (sortStrings_sorted l)
theorem sortStrings_congr {l l' : List GoString} (hp : l'.Perm l) :
    sortStrings l' = sortStrings l :=
  sortStrings_unique (sortStrings_sorted l') ((sortStrings_perm l').trans hp)


/-! ## File system -/

theorem FS.setFile_setFile (fs : FS) (n : GoString) (a b : Bytes) :
    (fs.setFile n a).setFile n b = fs.setFile n b := by
  ext : 1 <;> try rfl
  simp only [FS.setFile]
  funext k
  split <;> rfl

theorem FS.setFile_same (fs : FS) (n : GoString) (a : Bytes) (h : fs.files n = some a) :
    fs.setFile n a = fs := by
  ext : 1 <;> try rfl
  simp only [FS.setFile]
  funext k
  split
  · next heq => rw [heq, h]
  · rfl

theorem FS.setFile_files_self (fs : FS) (n : GoString) (a : Bytes) :
    (fs.setFile n a).files n = some a := by
  simp [FS.setFile]

theorem FS.setFile_files_ne (fs : FS) (n m : GoString) (a : Bytes) (h : m ≠ n) :
    (fs.setFile n a).files m = fs.files m := by
  simp [FS.setFile, h]

theorem take_append_drop_length (n : Nat) (l : Bytes) :
    l.take n ++ l.drop (l.take n).length = l := by
  rw [List.length_take]
  rcases Nat.le_total n l.length with h | h
  · rw [Nat.min_eq_left h]; exact List.take_append_drop n l
  · rw [Nat.min_eq_right h, List.drop_length, List.take_of_length_le h, List.append_nil]

/-- Copying a readable file into a different, writable file appends the rest
of the source, whatever the size of the buffer, once the fuel exceeds the
number of bytes left. -/
theorem copyBuffer_appends (bufLen : Nat) (hbuf : 0 < bufLen) (dst src : GoString)
    (hne : src ≠ dst) (c : Bytes) :
    ∀ (fuel : Nat) (fs : FS) (d : Bytes) (off : Nat),
      fs.files src = some c → fs.files dst = some d →
      fs.readFails src = false → fs.writeFails dst = false →
      c.length - off < fuel →
      copyBuffer bufLen fuel fs dst src off = some (fs.setFile dst (d ++ c.drop off), none) := by
  intro fuel
  induction fuel with
  | zero => intro fs d off _ _ _ _ h; exact absurd h (Nat.not_lt_zero _)
  | succ fuel ih =>
    intro fs d off hsrc hdst hr hw hfuel
    simp only [copyBuffer, hr, hsrc, Option.getD_some, Bool.false_eq_true, if_false]
    by_cases hchunk : (c.drop off).take bufLen = []
    · have hnil : c.drop off = [] := by
        rcases List.take_eq_nil_iff.mp hchunk with h | h
        · omega
        · exact h
      simp only [hnil, List.take_nil, if_true, List.append_nil]
      rw [FS.setFile_same fs dst d hdst]
    · simp only [hchunk, if_false, fileWrite, hw, hdst, Option.getD_some, Bool.false_eq_true]
      have hlen : 0 < ((c.drop off).take bufLen).length := List.length_pos.mpr hchunk
      have hle : ((c.drop off).take bufLen).length ≤ c.length - off := by
        rw [List.length_take, List.length_drop]; exact Nat.min_le_right _ _
      rw [ih (fs.setFile dst (d ++ (c.drop off).take bufLen)) (d ++ (c.drop off).take bufLen)
        (off + ((c.drop off).take bufLen).length)
        (by rw [FS.setFile_files_ne fs dst src _ hne]; exact hsrc)
        (FS.setFile_files_self fs dst _) hr hw (by omega)]
      rw [FS.setFile_setFile, List.append_assoc]
      have hsplit : (c.drop off).take bufLen ++ c.drop (off + ((c.drop off).take bufLen).length)
          = c.drop off := by
        rw [← List.drop_drop]
        exact take_append_drop_length bufLen (c.drop off)
      rw [hsplit]

/-! ## `mergeFiles` -/

theorem readable_setFile {fuel : Nat} {fs : FS} {f out : GoString} (d : Bytes) (hne : f ≠ out)
    (h : readable fuel fs f) : readable fuel (fs.setFile out d) f := by
  unfold readable at *
  rw [FS.setFile_files_ne fs out f d hne]
  exact h

theorem P5.mergeLoop_concat (fuel : Nat) (out : GoString) :
    ∀ (l : List GoString) (fs : FS) (d : Bytes),
      fs.files out = some d → fs.writeFails out = false →
      (∀ f ∈ l, f ≠ out ∧ readable fuel fs f) →
      P5.mergeLoop fuel out fs l =
        some (fs.setFile out (d ++ (l.map (fun f => (fs.files f).getD [])).flatten), none) := by
  intro l
  induction l with
  | nil =>
    intro fs d hd _ _
    simp only [P5.mergeLoop, List.map_nil, List.flatten_nil, List.append_nil]
    rw [FS.setFile_same fs out d hd]
  | cons f rest ih =>
    intro fs d hd hw hall
    obtain ⟨hne, ho, hr, hex, hlen⟩ := hall f (List.mem_cons_self f rest)
    obtain ⟨c, hc⟩ := Option.isSome_iff_exists.mp hex
    have hopen : osOpen fs f = none := by simp [osOpen, ho, hc]
    rw [hc] at hlen
    have hcopy := copyBuffer_appends (32 * 1024) (by decide) out f hne c fuel fs d 0 hc hd hr hw
      (by simpa using hlen)
    simp only [List.drop_zero] at hcopy
    simp only [P5.mergeLoop, hopen, hcopy]
    have hrest : ∀ g ∈ rest, g ≠ out ∧ readable fuel (fs.setFile out (d ++ c)) g := by
      intro g hg
      obtain ⟨hgne, hgr⟩ := hall g (List.mem_cons_of_mem f hg)
      exact ⟨hgne, readable_setFile _ hgne hgr⟩
    rw [ih (fs.setFile out (d ++ c)) (d ++ c) (FS.setFile_files_self fs out _) hw hrest]
    rw [FS.setFile_setFile]
    have hmap : rest.map (fun g => ((fs.setFile out (d ++ c)).files g).getD []) =
        rest.map (fun g => (fs.files g).getD []) := by
      apply List.map_congr_left
      intro g hg
      rw [FS.setFile_files_ne fs out g _ (hall g (List.mem_cons_of_mem f hg)).1]
    rw [hmap]
    simp only [List.map_cons, List.flatten_cons, hc, Option.getD_some, List.append_assoc]

theorem P4.mergeLoop_of_P5 (fuel : Nat) (out : GoString) :
    ∀ (l : List GoString) (fs fs' : FS),
      P5.mergeLoop fuel out fs l = some (fs', none) →
      P4.mergeLoop fuel out fs l = some (fs', none) := by
  intro l
  induction l with
  | nil => intro fs fs' h; simpa [P5.mergeLoop, P4.mergeLoop] using h
  | cons f rest ih =>
    intro fs fs' h
    simp only [P5.mergeLoop] at h
    simp only [P4.mergeLoop]
    cases ho : osOpen fs f with
    | some e => simp [ho] at h
    | none =>
      simp only [ho] at h ⊢
      cases hc : copyBuffer (32 * 1024) fuel fs out f 0 with
      | none => simp [hc] at h
      | some r =>
        obtain ⟨fs1, e⟩ := r
        cases e with
        | some e => simp [hc] at h
        | none =>
          simp only [hc] at h ⊢
          exact ih fs1 fs' h

theorem P5.mergeFiles_concat (fuel : Nat) (fs : FS) (filenames : List GoString)
    (out : GoString) (hcreate : fs.createFails out = false)
    (hwrite : fs.writeFails out = false) (hout : out ∉ filenames)
    (hfiles : ∀ f ∈ filenames, readable fuel fs f) :
    P5.mergeFiles fuel fs filenames out =
      some (fs.setFile out ((sortStrings filenames).map (fun f => (fs.files f).getD [])).flatten,
        none) := by
  have hmem : ∀ f ∈ sortStrings filenames, f ≠ out ∧ readable fuel (fs.setFile out []) f := by
    intro f hf
    have hf' : f ∈ filenames := (sortStrings_perm filenames).mem_iff.mp hf
    have hne : f ≠ out := fun h => hout (h ▸ hf')
    exact ⟨hne, readable_setFile _ hne (hfiles f hf')⟩
  simp only [P5.mergeFiles, osCreate, hcreate, Bool.false_eq_true, if_false]
  rw [P5.mergeLoop_concat fuel out (sortStrings filenames) (fs.setFile out []) []
    (FS.setFile_files_self fs out _) hwrite hmem, FS.setFile_setFile, List.nil_append]
  have hmap : (sortStrings filenames).map (fun g => ((fs.setFile out []).files g).getD []) =
      (sortStrings filenames).map (fun g => (fs.files g).getD []) := by
    apply List.map_congr_left
    intro g hg
    rw [FS.setFile_files_ne fs out g _ (hmem g hg).1]
  rw [hmap]

theorem P4.mergeFiles_of_P5 (fuel : Nat) (fs fs' : FS) (filenames : List GoString)
    (out : GoString) (h : P5.mergeFiles fuel fs filenames out = some (fs', none)) :
    P4.mergeFiles fuel fs filenames out = some (fs', none) := by
  simp only [P5.mergeFiles] at h
  simp only [P4.mergeFiles]
  cases hc : osCreate fs out with
  | error e => simp [hc] at h
  | ok fs1 =>
    simp only [hc] at h ⊢
    exact P4.mergeLoop_of_P5 fuel out _ fs1 fs' h

/-- C5: `mergeFiles` (pyonerip5.go and pyonerip4.go) sorts by filename and
merges. When the output file can be created and written, every named file
exists and can be opened and read, and the output file is not among the
named files, then, with fuel beyond the length of every input, `mergeFiles`
returns `nil`; the content of the output file is the concatenation of the
contents of the named files in ascending byte-wise lexicographic order of
filename, a name listed several times counting as often (the sorted list is
a permutation of the input, and the only sorted one); every other file is
unchanged; and every permutation of the input list gives the same result. -/
theorem mergeFiles_sorts_and_concatenates (fuel : Nat) (fs : FS) (filenames : List GoString)
    (outputFilename : GoString)
    (hcreate : fs.createFails outputFilename = false)
    (hwrite : fs.writeFails outputFilename = false)
    (hout : outputFilename ∉ filenames)
    (hfiles : ∀ f ∈ filenames, readable fuel fs f) :
    ∃ fs' : FS,
      P5.mergeFiles fuel fs filenames outputFilename = some (fs', none) ∧
      P4.mergeFiles fuel fs filenames outputFilename = some (fs', none) ∧
      fs'.files outputFilename =
        some ((sortStrings filenames).map (fun f => (fs.files f).getD [])).flatten ∧
      (sortStrings filenames).Perm filenames ∧
      (sortStrings filenames).Sorted strLE ∧
      (∀ s : List GoString, s.Sorted strLE → s.Perm filenames → s = sortStrings filenames) ∧
      (∀ f, f ≠ outputFilename → fs'.files f = fs.files f) ∧
      (∀ filenames' : List GoString, filenames'.Perm filenames →
        P5.mergeFiles fuel fs filenames' outputFilename = some (fs', none) ∧
        P4.mergeFiles fuel fs filenames' outputFilename = some (fs', none)) := by
  have h5 := P5.mergeFiles_concat fuel fs filenames outputFilename hcreate hwrite hout hfiles
  refine ⟨_, h5, P4.mergeFiles_of_P5 fuel fs _ filenames outputFilename h5,
    FS.setFile_files_self fs outputFilename _, sortStrings_perm filenames,
    sortStrings_sorted filenames, fun s hs hp => sortStrings_unique hs hp,
    fun f hf => FS.setFile_files_ne fs outputFilename f _ hf, ?_⟩
  intro filenames' hp
  have hout' : outputFilename ∉ filenames' := fun h => hout (hp.mem_iff.mp h)
  have hfiles' : ∀ f ∈ filenames', readable fuel fs f := fun f hf => hfiles f (hp.mem_iff.mp hf)
  have h5' := P5.mergeFiles_concat fuel fs filenames' outputFilename hcreate hwrite hout' hfiles'
  rw [sortStrings_congr hp] at h5'
  exact ⟨h5', P4.mergeFiles_of_P5 fuel fs _ filenames' outputFilename h5'⟩

/-- The hypotheses of C5 hold for the files `b` and `a`, listed in this order:
the output is the content of `a`, then that of `b`. -/
theorem mergeFiles_sorts_and_concatenates_witness :
    ∃ fs' : FS,
      P5.mergeFiles 3 ((emptyFS.setFile (ascii "b") [2, 3]).setFile (ascii "a") [1])
        [ascii "b", ascii "a"] (ascii "out") = some (fs', none) ∧
      fs'.files (ascii "out") = some [1, 2, 3] := by
  obtain ⟨fs', h5, _, hc, _⟩ := mergeFiles_sorts_and_concatenates 3
    ((emptyFS.setFile (ascii "b") [2, 3]).setFile (ascii "a") [1])
    [ascii "b", ascii "a"] (ascii "out") rfl rfl (by decide) (by decide)
  exact ⟨fs', h5, hc.trans (by decide)⟩

/-! ## pyonerip5.go: download, then merge -/

theorem filenameOf_eq_some_fname (url : GoString) : filenameOf url = some (fname url) := by
  have h : ∃ name, filenameOf url = some name := by
    rcases LastIndex_byte url slash with ⟨h1, _⟩ | ⟨r, h1, h2, _, _⟩
    · exact ⟨url, by simp [filenameOf, sliceFrom, h1]⟩
    · have hb : (0 : Int) ≤ (r : Int) + 1 ∧ (r : Int) + 1 ≤ (url.length : Int) := by omega
      exact ⟨url.drop ((r : Int) + 1).toNat, by simp only [filenameOf, sliceFrom, h1, if_pos hb]⟩
  obtain ⟨name, hn⟩ := h
  simp [fname, hn]

theorem filenameOf_append_slash (p t : GoString) (ht : slash ∉ t) :
    filenameOf (p ++ slash :: t) = some t := by
  rcases LastIndex_byte (p ++ slash :: t) slash with ⟨_, h2⟩ | ⟨r, h1, h2, h3, h4⟩
  · exact absurd (List.mem_append_right p (List.mem_cons_self slash t)) h2
  · have hr : r = p.length := by
      rcases Nat.lt_trichotomy r p.length with hlt | heq | hgt
      · exfalso
        apply h4
        have hidx : (p ++ slash :: t)[p.length]? = some slash := by
          rw [List.getElem?_append_right (Nat.le_refl _)]; simp
        have : (List.drop (r + 1) (p ++ slash :: t))[p.length - (r + 1)]? = some slash := by
          rw [List.getElem?_drop]
          have : r + 1 + (p.length - (r + 1)) = p.length := by omega
          rw [this]; exact hidx
        exact List.getElem?_mem this
      · exact heq
      · exfalso
        apply ht
        rw [List.getElem?_append_right (Nat.le_of_lt hgt)] at h3
        have hpos : r - p.length = (r - p.length - 1) + 1 := by omega
        rw [hpos, List.getElem?_cons_succ] at h3
        exact List.getElem?_mem h3
    subst hr
    have hb : (0 : Int) ≤ (p.length : Int) + 1 ∧
        (p.length : Int) + 1 ≤ ((p ++ slash :: t).length : Int) := by
      rw [List.length_append, List.length_cons]; omega
    have hn : ((p.length : Int) + 1).toNat = p.length + 1 := by omega
    simp only [filenameOf, sliceFrom, h1, if_pos hb, hn]
    congr 1
    rw [List.drop_append_eq_append_drop]
    simp

theorem P5.downloadFile_succeeds (net : Net) (fs : FS) (url : GoString)
    (h : downloadSucceeds net fs url) :
    P5.downloadFile net fs url =
      some (fs.setFile (fname url) (payload net url), some (fname url)) := by
  obtain ⟨hf, hc, hw⟩ := h
  obtain ⟨d, hd⟩ := Option.isSome_iff_exists.mp hf
  have hpay : payload net url = d := by simp [payload, hd]
  have hnet : net url = .body d false := by
    unfold fetched at hd
    split at hd
    · next dd heq => rw [heq]; cases hd; rfl
    · cases hd
  rw [hpay]
  simp only [P5.downloadFile, hnet, filenameOf_eq_some_fname, osCreate, hc, Bool.false_eq_true,
    if_false, copyBody]
  by_cases hnil : d = []
  · subst hnil; simp
  · have hw' : (fs.setFile (fname url) []).writeFails (fname url) = false := hw
    simp only [hnil, if_false, fileWrite, hw', Bool.false_eq_true, FS.setFile_files_self,
      Option.getD_some, List.nil_append, FS.setFile_setFile]

/-- The file system after the downloads of `us`, in this order, all succeed. -/
theorem P5.downloads_succeed (net : Net) :
    ∀ (us : List GoString) (fs : FS) (ch : List GoString),
      (∀ u ∈ us, downloadSucceeds net fs u) →
      P5.downloads net fs ch us =
        some (us.foldl (fun f u => f.setFile (fname u) (payload net u)) fs, ch ++ us.map fname) := by
  intro us
  induction us with
  | nil => intro fs ch _; simp [P5.downloads]
  | cons u rest ih =>
    intro fs ch h
    have hrest : ∀ v ∈ rest, downloadSucceeds net (fs.setFile (fname u) (payload net u)) v :=
      fun v hv => h v (List.mem_cons_of_mem u hv)
    simp only [P5.downloads, P5.downloadFile_succeeds net fs u (h u (List.mem_cons_self u rest)),
      ih _ _ hrest, List.foldl_cons, Option.toList_some, List.map_cons, List.append_assoc,
      List.singleton_append]

theorem foldl_setFile_oracles (net : Net) :
    ∀ (us : List GoString) (fs : FS),
      let fs1 := us.foldl (fun f u => f.setFile (fname u) (payload net u)) fs
      fs1.createFails = fs.createFails ∧ fs1.openFails = fs.openFails ∧
        fs1.readFails = fs.readFails ∧ fs1.writeFails = fs.writeFails := by
  intro us
  induction us with
  | nil => intro fs; exact ⟨rfl, rfl, rfl, rfl⟩
  | cons u rest ih => intro fs; exact ih (fs.setFile (fname u) (payload net u))

theorem foldl_setFile_files_of_not_mem (net : Net) :
    ∀ (us : List GoString) (fs : FS) (f : GoString), f ∉ us.map fname →
      (us.foldl (fun f u => f.setFile (fname u) (payload net u)) fs).files f = fs.files f := by
  intro us
  induction us with
  | nil => intro fs f _; rfl
  | cons u rest ih =>
    intro fs f hf
    rw [List.map_cons, List.mem_cons, not_or] at hf
    rw [List.foldl_cons, ih _ f hf.2, FS.setFile_files_ne fs _ f _ hf.1]

theorem foldl_setFile_files_of_mem (net : Net) :
    ∀ (us : List GoString) (fs : FS), (us.map fname).Nodup → ∀ u ∈ us,
      (us.foldl (fun f u => f.setFile (fname u) (payload net u)) fs).files (fname u) =
        some (payload net u) := by
  intro us
  induction us with
  | nil => intro fs _ u hu; cases hu
  | cons v rest ih =>
    intro fs hnd u hu
    rw [List.map_cons, List.nodup_cons] at hnd
    rw [List.foldl_cons]
    rcases List.mem_cons.mp hu with h | h
    · subst h
      rw [foldl_setFile_files_of_not_mem net rest _ _ hnd.1, FS.setFile_files_self]
    · exact ih _ hnd.2 u h

theorem filterMap_getElem?_range (l : List GoString) :
    (List.range l.length).filterMap (fun i => l[i]?) = l := by
  induction l using List.reverseRecOn with
  | nil => rfl
  | append_singleton l a ih =>
    rw [List.length_append, List.length_singleton, List.range_succ, List.filterMap_append]
    have h1 : (List.range l.length).filterMap (fun i => (l ++ [a])[i]?) =
        (List.range l.length).filterMap (fun i => l[i]?) := by
      apply List.filterMap_congr
      intro i hi
      exact List.getElem?_append_left (List.mem_range.mp hi)
    rw [h1, ih]
    simp

theorem P5.completionSeq_perm (fileUrls : List GoString) (order : List Nat)
    (h : order.Perm (List.range fileUrls.length)) :
    (P5.completionSeq fileUrls order).Perm fileUrls := by
  have := h.filterMap (fun i => fileUrls[i]?)
  rwa [filterMap_getElem?_range] at this

/-- The run of `main` when all downloads succeed and the filenames are
pairwise distinct and differ from the output file: every downloaded file
holds its payload, and the output file holds the files' contents in sorted
order of filename. -/
theorem P5.main_output (fuel : Nat) (net : Net) (fs : FS) (fileUrls : List GoString)
    (order : List Nat) (horder : order.Perm (List.range fileUrls.length))
    (hsucc : ∀ u ∈ fileUrls, downloadSucceeds net fs u)
    (hdistinct : (fileUrls.map fname).Nodup)
    (hout : P5.outputName ∉ fileUrls.map fname)
    (hcreate : fs.createFails P5.outputName = false)
    (hwrite : fs.writeFails P5.outputName = false)
    (hread : ∀ u ∈ fileUrls, fs.openFails (fname u) = false ∧ fs.readFails (fname u) = false ∧
      (payload net u).length < fuel) :
    ∃ fs1 : FS, (∀ u ∈ fileUrls, fs1.files (fname u) = some (payload net u)) ∧
      P5.main fuel net fs fileUrls order =
        some (fs1.setFile P5.outputName
          ((sortStrings (fileUrls.map fname)).map (fun f => (fs1.files f).getD [])).flatten) := by
  have hperm := P5.completionSeq_perm fileUrls order horder
  have hmem : ∀ u, u ∈ P5.completionSeq fileUrls order ↔ u ∈ fileUrls := fun u => hperm.mem_iff
  have hpermN : ((P5.completionSeq fileUrls order).map fname).Perm (fileUrls.map fname) :=
    hperm.map fname
  have hnd : ((P5.completionSeq fileUrls order).map fname).Nodup := hpermN.nodup_iff.mpr hdistinct
  have hdl := P5.downloads_succeed net (P5.completionSeq fileUrls order) fs []
    (fun u hu => hsucc u ((hmem u).mp hu))
  obtain ⟨hoc, hoo, hor, how⟩ := foldl_setFile_oracles net (P5.completionSeq fileUrls order) fs
  have hfiles := foldl_setFile_files_of_mem net (P5.completionSeq fileUrls order) fs hnd
  refine ⟨_, fun u hu => hfiles u ((hmem u).mpr hu), ?_⟩
  simp only [P5.main, hdl, List.nil_append]
  rw [P5.mergeFiles_concat fuel _ _ P5.outputName (by rw [hoc]; exact hcreate)
    (by rw [how]; exact hwrite) (fun h => hout (hpermN.mem_iff.mp h)) ?_]
  · rw [sortStrings_congr hpermN]; rfl
  · intro f hf
    obtain ⟨u, hu, rfl⟩ := List.mem_map.mp hf
    obtain ⟨h1, h2, h3⟩ := hread u ((hmem u).mp hu)
    unfold readable
    rw [hoo, hor, hfiles u hu]
    exact ⟨h1, h2, rfl, h3⟩

/-- C6 (as amended): no loss and no duplication in pyonerip5.go when the
filenames derived from the URLs are pairwise distinct and none is the output
file. If all downloads succeed and `mergeFiles` can create and write the
output file and open and read the downloaded files, then for every
completion order the bytes of `output.ts` are the concatenation of a
permutation of the payloads: each payload once. -/
theorem pyonerip5_no_loss_no_duplication (fuel : Nat) (net : Net) (fs : FS)
    (fileUrls : List GoString) (order : List Nat)
    (horder : order.Perm (List.range fileUrls.length))
    (hsucc : ∀ u ∈ fileUrls, downloadSucceeds net fs u)
    (hdistinct : (fileUrls.map fname).Nodup)
    (hout : P5.outputName ∉ fileUrls.map fname)
    (hcreate : fs.createFails P5.outputName = false)
    (hwrite : fs.writeFails P5.outputName = false)
    (hread : ∀ u ∈ fileUrls, fs.openFails (fname u) = false ∧ fs.readFails (fname u) = false ∧
      (payload net u).length < fuel) :
    ∃ (fs' : FS) (l : List Bytes), P5.main fuel net fs fileUrls order = some fs' ∧
      l.Perm (fileUrls.map (payload net)) ∧ fs'.files P5.outputName = some l.flatten := by
  obtain ⟨fs1, hfiles, hmain⟩ := P5.main_output fuel net fs fileUrls order horder hsucc hdistinct
    hout hcreate hwrite hread
  refine ⟨_, _, hmain, ?_, FS.setFile_files_self _ _ _⟩
  have h1 : ((sortStrings (fileUrls.map fname)).map (fun f => (fs1.files f).getD [])).Perm
      ((fileUrls.map fname).map (fun f => (fs1.files f).getD [])) :=
    (sortStrings_perm _).map _
  have h2 : (fileUrls.map fname).map (fun f => (fs1.files f).getD []) =
      fileUrls.map (payload net) := by
    rw [List.map_map]
    apply List.map_congr_left
    intro u hu
    simp [hfiles u hu]
  rw [h2] at h1
  exact h1

/-- The hypotheses of C6 (as amended) hold for two URLs with the filenames `a`
and `b`, the second download finishing first. -/
theorem pyonerip5_no_loss_no_duplication_witness :
    ∃ (fs' : FS) (l : List Bytes),
      P5.main 2 (netOf [(ascii "h/a", [1]), (ascii "h/b", [2])]) emptyFS
        [ascii "h/a", ascii "h/b"] [1, 0] = some fs' ∧
      l.Perm ([ascii "h/a", ascii "h/b"].map
        (payload (netOf [(ascii "h/a", [1]), (ascii "h/b", [2])]))) ∧
      fs'.files P5.outputName = some l.flatten :=
  pyonerip5_no_loss_no_duplication 2 (netOf [(ascii "h/a", [1]), (ascii "h/b", [2])]) emptyFS
    [ascii "h/a", ascii "h/b"] [1, 0] (List.Perm.swap 0 1 []) (by decide) (by decide)
    (by decide) rfl rfl (by decide)

/-- C6 (counterexample): two URLs with the same last path component. Both
downloads succeed and both write the file `x.ts`; the second payload replaces
the first, the name `x.ts` is sent twice, and `output.ts` holds the second
payload twice: the first payload is lost and the second is duplicated. And
one URL whose last path component is `output.ts`: the download succeeds,
`mergeFiles` truncates the downloaded file when it creates its output, and
`output.ts` ends up empty. -/
theorem pyonerip5_same_filename_loses_payload :
    ((∀ u ∈ [ascii "http://a/x.ts", ascii "http://b/x.ts"],
      downloadSucceeds (netOf [(ascii "http://a/x.ts", [1]), (ascii "http://b/x.ts", [2])])
        emptyFS u) ∧
    ((P5.main 2 (netOf [(ascii "http://a/x.ts", [1]), (ascii "http://b/x.ts", [2])]) emptyFS
        [ascii "http://a/x.ts", ascii "http://b/x.ts"] [0, 1]).bind
      (fun fs' => fs'.files P5.outputName)) = some [2, 2] ∧
    ¬ ∃ l : List Bytes,
      l.Perm ([ascii "http://a/x.ts", ascii "http://b/x.ts"].map
        (payload (netOf [(ascii "http://a/x.ts", [1]), (ascii "http://b/x.ts", [2])]))) ∧
      [2, 2] = l.flatten) ∧
    ((∀ u ∈ [ascii "http://a/output.ts"],
      downloadSucceeds (netOf [(ascii "http://a/output.ts", [1])]) emptyFS u) ∧
    ((P5.main 2 (netOf [(ascii "http://a/output.ts", [1])]) emptyFS
        [ascii "http://a/output.ts"] [0]).bind
      (fun fs' => fs'.files P5.outputName)) = some [] ∧
    ¬ ∃ l : List Bytes,
      l.Perm ([ascii "http://a/output.ts"].map
        (payload (netOf [(ascii "http://a/output.ts", [1])]))) ∧
      [] = l.flatten) := by
  refine ⟨⟨by decide, by decide, ?_⟩, ⟨by decide, by decide, ?_⟩⟩
  · rintro ⟨l, hp, he⟩
    have h1 : ([1] : Bytes) ∈ l := hp.mem_iff.mpr (by decide)
    have h2 : (1 : Nat) ∈ l.flatten := List.mem_flatten.mpr ⟨[1], h1, List.mem_singleton_self 1⟩
    rw [← he] at h2
    exact absurd h2 (by decide)
  · rintro ⟨l, hp, he⟩
    have h1 : ([1] : Bytes) ∈ l := hp.mem_iff.mpr (by decide)
    have h2 : (1 : Nat) ∈ l.flatten := List.mem_flatten.mpr ⟨[1], h1, List.mem_singleton_self 1⟩
    rw [← he] at h2
    exact absurd h2 (by decide)

/-- C4 (counterexample): ten segments `file1.ts`, ..., `file10.ts` with the
payloads `0`, ..., `9`. All downloads succeed, and `output.ts` holds payload
`9` (of `file10.ts`) right after payload `0` (of `file1.ts`), since
`"file10.ts" < "file2.ts"`: not the concatenation in index order. -/
theorem pyonerip5_order_fails_at_ten :
    (exampleUrls 3 = [ascii "http://example.com/file1.ts", ascii "http://example.com/file2.ts",
      ascii "http://example.com/file3.ts"]) ∧
    (∀ u ∈ exampleUrls 10, downloadSucceeds (exampleNet 10) emptyFS u) ∧
    ((P5.main 2 (exampleNet 10) emptyFS (exampleUrls 10) (List.range 10)).bind
      (fun fs' => fs'.files P5.outputName)) = some [0, 9, 1, 2, 3, 4, 5, 6, 7, 8] ∧
    ((exampleUrls 10).map (payload (exampleNet 10))).flatten = [0, 1, 2, 3, 4, 5, 6, 7, 8, 9] ∧
    ([0, 9, 1, 2, 3, 4, 5, 6, 7, 8] : Bytes) ≠ [0, 1, 2, 3, 4, 5, 6, 7, 8, 9] := by
  refine ⟨by decide, by decide, by decide, by decide, by decide⟩

theorem fname_segmentUrl (base : Nat → GoString) (i : Nat) (hi : i < 9) :
    fname (segmentUrl base i) = segmentName i := by
  have hs : slash ∉ segmentName i := by interval_cases i <;> decide
  have hu : segmentUrl base i = base i ++ slash :: segmentName i := by
    simp [segmentUrl, ascii, slash]
  simp [fname, hu, filenameOf_append_slash (base i) (segmentName i) hs]

theorem segmentNames_facts (n : Nat) (hn : n ≤ 9) :
    ((List.range n).map segmentName).Nodup ∧
    P5.outputName ∉ (List.range n).map segmentName ∧
    sortStrings ((List.range n).map segmentName) = (List.range n).map segmentName := by
  interval_cases n <;> exact ⟨by decide, by decide, by decide⟩

/-- C4 (as amended): the order invariant of the pyonerip5.go pipeline for at
most nine segments. Segment `i` has a URL ending in `/file<i+1>.ts`. If
`n ≤ 9`, all downloads succeed and `mergeFiles` can create and write the
output file and open and read the downloaded files, then for every
completion order the bytes of `output.ts` are the concatenation of the
payloads in ascending index order. -/
theorem pyonerip5_order_invariant_up_to_nine (fuel : Nat) (net : Net) (fs : FS)
    (base : Nat → GoString) (n : Nat) (order : List Nat)
    (hn : n ≤ 9) (horder : order.Perm (List.range n))
    (hsucc : ∀ i, i < n → downloadSucceeds net fs (segmentUrl base i))
    (hcreate : fs.createFails P5.outputName = false)
    (hwrite : fs.writeFails P5.outputName = false)
    (hread : ∀ i, i < n → fs.openFails (segmentName i) = false ∧
      fs.readFails (segmentName i) = false ∧
      (payload net (segmentUrl base i)).length < fuel) :
    ∃ fs' : FS, P5.main fuel net fs ((List.range n).map (segmentUrl base)) order = some fs' ∧
      fs'.files P5.outputName =
        some ((List.range n).map (fun i => payload net (segmentUrl base i))).flatten := by
  obtain ⟨hnd, hout, hsorted⟩ := segmentNames_facts n hn
  have hnames : ((List.range n).map (segmentUrl base)).map fname =
      (List.range n).map segmentName := by
    rw [List.map_map]
    apply List.map_congr_left
    intro i hi
    exact fname_segmentUrl base i (by have := List.mem_range.mp hi; omega)
  have hlen : ((List.range n).map (segmentUrl base)).length = n := by simp
  obtain ⟨fs1, hfiles, hmain⟩ := P5.main_output fuel net fs ((List.range n).map (segmentUrl base))
    order (by rw [hlen]; exact horder)
    (by
      intro u hu
      obtain ⟨i, hi, rfl⟩ := List.mem_map.mp hu
      exact hsucc i (List.mem_range.mp hi))
    (by rw [hnames]; exact hnd) (by rw [hnames]; exact hout) hcreate hwrite
    (by
      intro u hu
      obtain ⟨i, hi, rfl⟩ := List.mem_map.mp hu
      have hi' := List.mem_range.mp hi
      rw [fname_segmentUrl base i (by omega)]
      exact hread i hi')
  refine ⟨_, hmain, ?_⟩
  rw [FS.setFile_files_self, hnames, hsorted, List.map_map]
  congr 2
  apply List.map_congr_left
  intro i hi
  have hi' := List.mem_range.mp hi
  have := hfiles (segmentUrl base i) (List.mem_map.mpr ⟨i, hi, rfl⟩)
  rw [fname_segmentUrl base i (by omega)] at this
  simp [this]

/-- The hypotheses of C4 (as amended) hold for the three URLs of `main`, the
downloads finishing in the order 2, 0, 1. -/
theorem pyonerip5_order_invariant_up_to_nine_witness :
    ∃ fs' : FS,
      P5.main 2 (exampleNet 3) emptyFS
        ((List.range 3).map (segmentUrl (fun _ => ascii "http://example.com"))) [2, 0, 1]
        = some fs' ∧
      fs'.files P5.outputName =
        some ((List.range 3).map (fun i =>
          payload (exampleNet 3) (segmentUrl (fun _ => ascii "http://example.com") i))).flatten :=
  pyonerip5_order_invariant_up_to_nine 2 (exampleNet 3) emptyFS
    (fun _ => ascii "http://example.com") 3 [2, 0, 1] (by decide) (by decide)
    (by decide) rfl rfl (by decide)

/-! ## pyonerip3.go -/

theorem P3.downloadTsFile_buf (net : Net) (url : GoString) (i : Nat) :
    (P3.downloadTsFile net url i).map tsFile.buf = fetched net url := by
  unfold P3.downloadTsFile fetched
  cases h : net url with
  | requestError => rfl
  | sendError => rfl
  | body d e => cases e <;> rfl

theorem P3.writeAll_appends (out : GoString) :
    ∀ (ts : List tsFile) (fs : FS) (d : Bytes),
      fs.files out = some d → fs.writeFails out = false →
      P3.writeAll out fs ts = (fs.setFile out (d ++ (ts.map tsFile.buf).flatten), none) := by
  intro ts
  induction ts with
  | nil =>
    intro fs d hd _
    simp only [P3.writeAll, List.map_nil, List.flatten_nil, List.append_nil]
    rw [FS.setFile_same fs out d hd]
  | cons t rest ih =>
    intro fs d hd hw
    simp only [P3.writeAll, fileWrite, hw, Bool.false_eq_true, if_false, hd, Option.getD_some]
    rw [ih (fs.setFile out (d ++ t.buf)) (d ++ t.buf) (FS.setFile_files_self fs out _) hw,
      FS.setFile_setFile]
    simp only [List.map_cons, List.flatten_cons, List.append_assoc]

/-- The run of `downloadAndCombine` when the output file can be created and
written: `nil` is returned and the file holds the received buffers in the
order in which they were received. -/
theorem P3.downloadAndCombine_output (parseM3u8 : GoString → Except Err (List GoString))
    (net : Net) (fs : FS) (order : List Nat) (m3u8Url outFile : GoString)
    (tsFiles : List GoString) (hparse : parseM3u8 m3u8Url = .ok tsFiles)
    (hcreate : fs.createFails outFile = false) (hwrite : fs.writeFails outFile = false) :
    P3.downloadAndCombine parseM3u8 net fs order m3u8Url outFile =
      (fs.setFile outFile ((P3.received net tsFiles order).map tsFile.buf).flatten, none) := by
  simp only [P3.downloadAndCombine, hparse, P3.combineTsFiles, osCreate, hcreate,
    Bool.false_eq_true, if_false]
  rw [P3.writeAll_appends outFile _ (fs.setFile outFile []) [] (FS.setFile_files_self fs outFile _)
    hwrite, FS.setFile_setFile, List.nil_append]

theorem P3.received_buf_perm (net : Net) (tsFiles : List GoString) (order : List Nat)
    (horder : order.Perm (List.range tsFiles.length)) :
    ((P3.received net tsFiles order).map tsFile.buf).Perm (tsFiles.filterMap (fetched net)) := by
  have h1 : (P3.received net tsFiles order).map tsFile.buf =
      order.filterMap (fun i => (tsFiles[i]?).bind (fetched net)) := by
    unfold P3.received
    rw [List.map_filterMap]
    apply List.filterMap_congr
    intro i _
    cases tsFiles[i]? with
    | none => rfl
    | some u => exact P3.downloadTsFile_buf net u i
  have h2 : (List.range tsFiles.length).filterMap (fun i => (tsFiles[i]?).bind (fetched net)) =
      tsFiles.filterMap (fetched net) := by
    conv_rhs => rw [← filterMap_getElem?_range tsFiles]
    rw [List.filterMap_filterMap]
  rw [h1, ← h2]
  exact horder.filterMap _

/-- C1 (the code at the failing input): four segments with the payloads `A`,
`B`, `C`, `D` (the bytes 65 to 68) whose results arrive in the order
`C, A, D, B`. `downloadAndCombine` returns `nil` and the output file holds
`C A D B`, the arrival order, not `A B C D`. -/
theorem pyonerip3_writes_in_arrival_order :
    P3.received (netOf [(ascii "s0", [65]), (ascii "s1", [66]), (ascii "s2", [67]),
        (ascii "s3", [68])]) [ascii "s0", ascii "s1", ascii "s2", ascii "s3"] [2, 0, 3, 1] =
      [⟨[67], 2⟩, ⟨[65], 0⟩, ⟨[68], 3⟩, ⟨[66], 1⟩] ∧
    (P3.downloadAndCombine (fun _ => .ok [ascii "s0", ascii "s1", ascii "s2", ascii "s3"])
      (netOf [(ascii "s0", [65]), (ascii "s1", [66]), (ascii "s2", [67]), (ascii "s3", [68])])
      emptyFS [2, 0, 3, 1] (ascii "playlist.m3u8") (ascii "output.ts")).2 = none ∧
    (P3.downloadAndCombine (fun _ => .ok [ascii "s0", ascii "s1", ascii "s2", ascii "s3"])
      (netOf [(ascii "s0", [65]), (ascii "s1", [66]), (ascii "s2", [67]), (ascii "s3", [68])])
      emptyFS [2, 0, 3, 1] (ascii "playlist.m3u8") (ascii "output.ts")).1.files
        (ascii "output.ts") = some [67, 65, 68, 66] ∧
    ([ascii "s0", ascii "s1", ascii "s2", ascii "s3"].map
      (payload (netOf [(ascii "s0", [65]), (ascii "s1", [66]), (ascii "s2", [67]),
        (ascii "s3", [68])]))).flatten = [65, 66, 67, 68] ∧
    ([67, 65, 68, 66] : Bytes) ≠ [65, 66, 67, 68] := by
  refine ⟨by decide, by decide, by decide, by decide, by decide⟩

/-- C2 (counterexample): three segments with the payloads `A`, `B`, `C`, the
download of segment 1 failing. `downloadAndCombine` returns `nil`, and the
output file holds `A C`: neither `A` nor empty, with the payload of segment 2
in it. -/
theorem pyonerip3_failed_download_returns_nil :
    P3.downloadTsFile (netOf [(ascii "s0", [65]), (ascii "s2", [67])]) (ascii "s1") 1 = none ∧
    (P3.downloadAndCombine (fun _ => .ok [ascii "s0", ascii "s1", ascii "s2"])
      (netOf [(ascii "s0", [65]), (ascii "s2", [67])])
      emptyFS [0, 1, 2] (ascii "playlist.m3u8") (ascii "output.ts")).2 = none ∧
    (P3.downloadAndCombine (fun _ => .ok [ascii "s0", ascii "s1", ascii "s2"])
      (netOf [(ascii "s0", [65]), (ascii "s2", [67])])
      emptyFS [0, 1, 2] (ascii "playlist.m3u8") (ascii "output.ts")).1.files
        (ascii "output.ts") = some [65, 67] ∧
    ([65, 67] : Bytes) ≠ [65] ∧ ([65, 67] : Bytes) ≠ [] := by
  refine ⟨by decide, by decide, by decide, by decide, by decide⟩

/-- C2 (as amended): a failed download is skipped in pyonerip3.go. For every
segment list, whichever downloads fail and whatever the order in which the
results arrive, `downloadAndCombine` returns `nil` when the output file can be
created and written, and the bytes written are the concatenation of the
payloads of exactly the segments whose download succeeded, each once; a
failed segment contributes no bytes. -/
theorem pyonerip3_failed_download_is_skipped
    (parseM3u8 : GoString → Except Err (List GoString))
    (net : Net) (fs : FS) (order : List Nat) (m3u8Url outFile : GoString)
    (tsFiles : List GoString) (hparse : parseM3u8 m3u8Url = .ok tsFiles)
    (horder : order.Perm (List.range tsFiles.length))
    (hcreate : fs.createFails outFile = false) (hwrite : fs.writeFails outFile = false) :
    ∃ (fs' : FS) (l : List Bytes),
      P3.downloadAndCombine parseM3u8 net fs order m3u8Url outFile = (fs', none) ∧
      l.Perm (tsFiles.filterMap (fetched net)) ∧
      fs'.files outFile = some l.flatten :=
  ⟨_, _, P3.downloadAndCombine_output parseM3u8 net fs order m3u8Url outFile tsFiles hparse
    hcreate hwrite, P3.received_buf_perm net tsFiles order horder, FS.setFile_files_self _ _ _⟩

/-- The hypotheses of C2 (as amended) hold for three segments of which segment
1 fails, the results arriving in the order 2, 0. -/
theorem pyonerip3_failed_download_is_skipped_witness :
    ∃ (fs' : FS) (l : List Bytes),
      P3.downloadAndCombine (fun _ => .ok [ascii "s0", ascii "s1", ascii "s2"])
        (netOf [(ascii "s0", [65]), (ascii "s2", [67])])
        emptyFS [2, 1, 0] (ascii "playlist.m3u8") (ascii "output.ts") = (fs', none) ∧
      l.Perm ([ascii "s0", ascii "s1", ascii "s2"].filterMap
        (fetched (netOf [(ascii "s0", [65]), (ascii "s2", [67])]))) ∧
      fs'.files (ascii "output.ts") = some l.flatten :=
  pyonerip3_failed_download_is_skipped (fun _ => .ok [ascii "s0", ascii "s1", ascii "s2"])
    (netOf [(ascii "s0", [65]), (ascii "s2", [67])]) emptyFS [2, 1, 0] (ascii "playlist.m3u8")
    (ascii "output.ts") [ascii "s0", ascii "s1", ascii "s2"] rfl (by decide) rfl rfl

/-! ## pyonerip.go -/

theorem countP_set_of_getElem? (p : P1.Pc → Bool) :
    ∀ (l : List P1.Pc) (i : Nat) (a b : P1.Pc), l[i]? = some a →
      (l.set i b).countP p + (if p a then 1 else 0) = l.countP p + (if p b then 1 else 0) := by
  intro l
  induction l with
  | nil => intro i a b h; simp at h
  | cons x xs ih =>
    intro i a b h
    cases i with
    | zero =>
      simp only [List.getElem?_cons_zero, Option.some.injEq] at h
      subst h
      simp only [List.set_cons_zero, List.countP_cons]
      omega
    | succ j =>
      simp only [List.getElem?_cons_succ] at h
      have := ih j a b h
      simp only [List.set_cons_succ, List.countP_cons]
      omega

/-- The invariant behind bounded concurrency: the number of elements in
`semaphore` is the number of goroutines that hold a slot, and it is at most
the capacity of the channel. -/
theorem P1.step_sem (net : Net) (cf wf : Bool) (urls : List GoString) (s s' : P1.State)
    (e : P1.Event) (h : P1.step net cf wf urls s e = some s')
    (hinv : s.sem = P1.active s ∧ s.sem ≤ P1.maxConcurrency) :
    s'.sem = P1.active s' ∧ s'.sem ≤ P1.maxConcurrency := by
  obtain ⟨h1, h2⟩ := hinv
  unfold P1.active at *
  cases e with
  | spawn =>
    simp only [P1.step] at h
    split at h
    · cases h; exact ⟨h1, h2⟩
    · cases h
  | acquire i =>
    simp only [P1.step] at h
    split at h
    · next hc =>
      obtain ⟨_, _, _, hpc, hlt⟩ := hc
      cases h
      have := countP_set_of_getElem? P1.Pc.holding s.pcs i .start .acquired hpc
      simp only [P1.Pc.holding] at this
      simp only
      constructor
      · simp at this; omega
      · omega
    · cases h
  | fetch i =>
    simp only [P1.step] at h
    split at h
    · next hc =>
      obtain ⟨_, _, hpc⟩ := hc
      split at h
      · next data _ =>
        cases h
        have := countP_set_of_getElem? P1.Pc.holding s.pcs i .acquired (.fetched data) hpc
        simp only [P1.Pc.holding] at this
        simp only
        constructor
        · simp at this; omega
        · omega
      · cases h; exact ⟨h1, h2⟩
    · cases h
  | send i =>
    simp only [P1.step] at h
    split at h
    · split at h
      · next data hpc =>
        split at h
        · cases h; exact ⟨h1, h2⟩
        · cases h
          have := countP_set_of_getElem? P1.Pc.holding s.pcs i (.fetched data) .sent hpc
          simp only [P1.Pc.holding] at this
          simp only
          constructor
          · simp at this; omega
          · omega
      · cases h
    · cases h
  | release i =>
    simp only [P1.step] at h
    split at h
    · next hc =>
      obtain ⟨_, _, hpc, hpos⟩ := hc
      cases h
      have := countP_set_of_getElem? P1.Pc.holding s.pcs i .sent .released hpc
      simp only [P1.Pc.holding] at this
      simp only
      constructor
      · simp at this; omega
      · omega
    · cases h
  | wgDone i =>
    simp only [P1.step] at h
    split at h
    · next hc =>
      obtain ⟨_, _, hpc⟩ := hc
      cases h
      have := countP_set_of_getElem? P1.Pc.holding s.pcs i .released .done hpc
      simp only [P1.Pc.holding] at this
      simp only
      constructor
      · simp at this; omega
      · omega
    · cases h
  | create =>
    simp only [P1.step] at h
    split at h
    · split at h <;> (cases h; exact ⟨h1, h2⟩)
    · cases h
  | closeChan =>
    simp only [P1.step] at h
    split at h
    · cases h; exact ⟨h1, h2⟩
    · cases h
  | receive =>
    simp only [P1.step] at h
    split at h
    · split at h
      · cases h
      · split at h <;> (cases h; exact ⟨h1, h2⟩)
    · cases h
  | finish =>
    simp only [P1.step] at h
    split at h
    · cases h; exact ⟨h1, h2⟩
    · cases h

theorem P1.run_sem (net : Net) (cf wf : Bool) (urls : List GoString) :
    ∀ (evs : List P1.Event) (s s' : P1.State),
      P1.run net cf wf urls s evs = some s' →
      s.sem = P1.active s ∧ s.sem ≤ P1.maxConcurrency →
      s'.sem = P1.active s' ∧ s'.sem ≤ P1.maxConcurrency := by
  intro evs
  induction evs with
  | nil => intro s s' h hinv; simp only [P1.run, Option.some.injEq] at h; subst h; exact hinv
  | cons e rest ih =>
    intro s s' h hinv
    simp only [P1.run] at h
    cases hs : P1.step net cf wf urls s e with
    | none => simp [hs] at h
    | some s1 =>
      simp only [hs] at h
      exact ih s1 s' h (P1.step_sem net cf wf urls s s1 e hs hinv)

theorem P1.init_sem (n : Nat) :
    (P1.init n).sem = P1.active (P1.init n) ∧ (P1.init n).sem ≤ P1.maxConcurrency := by
  constructor
  · simp only [P1.init, P1.active]
    rw [List.countP_eq_zero.mpr]
    intro pc hpc
    rw [List.eq_of_mem_replicate hpc]
    simp [P1.Pc.holding]
  · simp [P1.init]

/-- C3: bounded concurrency in pyonerip.go. In every state that the program
reaches, by any interleaving of the steps of `main` and of the download
goroutines and for any number of URLs, the number of goroutines that have
acquired a slot of the semaphore and not yet released it is at most
`maxConcurrency = 10`. -/
theorem pyonerip_bounded_concurrency (net : Net) (createFails writeFails : Bool)
    (urls : List GoString) (schedule : List P1.Event) (s : P1.State)
    (hreach : P1.run net createFails writeFails urls (P1.init urls.length) schedule = some s) :
    P1.active s ≤ P1.maxConcurrency ∧ P1.maxConcurrency = 10 := by
  obtain ⟨h1, h2⟩ := P1.run_sem net createFails writeFails urls schedule _ s hreach
    (P1.init_sem urls.length)
  exact ⟨h1 ▸ h2, rfl⟩

/-- The hypothesis of C3 holds for eleven URLs: after all goroutines are
launched and ten of them have acquired a slot, ten are active, and the
eleventh cannot acquire one. -/
theorem pyonerip_bounded_concurrency_witness :
    P1.run (exampleNet 11) false false (exampleUrls 11) (P1.init (exampleUrls 11).length)
        P1.fullSchedule =
      some { spawned := 11, pcs := List.replicate 10 P1.Pc.acquired ++ [P1.Pc.start], sem := 10,
             dataChan := [], closed := false, mainPc := .launching, output := none,
             exited := false } ∧
    P1.run (exampleNet 11) false false (exampleUrls 11) (P1.init (exampleUrls 11).length)
        (P1.fullSchedule ++ [P1.Event.acquire 10]) = none ∧
    P1.active { spawned := 11, pcs := List.replicate 10 P1.Pc.acquired ++ [P1.Pc.start],
                sem := 10, dataChan := [], closed := false, mainPc := .launching,
                output := none, exited := false } ≤ P1.maxConcurrency :=
  ⟨by decide, by decide,
    (pyonerip_bounded_concurrency (exampleNet 11) false false (exampleUrls 11) P1.fullSchedule
      _ (by decide)).1⟩

theorem fetched_set (P : Nat → Bytes → Prop) (l : List P1.Pc) (i : Nat) (b : P1.Pc)
    (hl : ∀ (j : Nat) (d : Bytes), l[j]? = some (P1.Pc.fetched d) → P j d)
    (hb : ∀ d : Bytes, b = P1.Pc.fetched d → P i d) :
    ∀ (j : Nat) (d : Bytes), (l.set i b)[j]? = some (P1.Pc.fetched d) → P j d := by
  intro j d h
  rw [List.getElem?_set] at h
  split at h
  · next hij =>
    subst hij
    split at h
    · exact hb d (Option.some.inj h)
    · cases h
  · exact hl j d h

theorem P1.step_outputInv (net : Net) (cf wf : Bool) (urls : List GoString) (s s' : P1.State)
    (e : P1.Event) (sent : List Nat) (h : P1.step net cf wf urls s e = some s')
    (hinv : P1.outputInv net urls sent s) :
    P1.outputInv net urls (sent ++ P1.sendOrder [e]) s' := by
  obtain ⟨_, hlive⟩ := hinv
  cases e with
  | spawn =>
    simp only [P1.step] at h
    split at h
    · next hc =>
      obtain ⟨hex, hm, _⟩ := hc
      obtain ⟨ha, hb, hc', hd⟩ := hlive hex
      cases h
      refine ⟨fun hr => ?_, fun _ => ⟨ha, ?_, hc', hd⟩⟩
      · simp [hm] at hr
      · simpa [P1.sendOrder] using hb
    · cases h
  | acquire i =>
    simp only [P1.step] at h
    split at h
    · next hc =>
      obtain ⟨hex, hm, _, _, _⟩ := hc
      obtain ⟨ha, hb, hc', hd⟩ := hlive hex
      cases h
      refine ⟨fun hr => absurd hr hm, fun _ => ⟨?_, ?_, hc', hd⟩⟩
      · exact fetched_set _ s.pcs i _ ha (fun d hd' => by cases hd')
      · simpa [P1.sendOrder] using hb
    · cases h
  | fetch i =>
    simp only [P1.step] at h
    split at h
    · next hc =>
      obtain ⟨hex, hm, _⟩ := hc
      obtain ⟨ha, hb, hc', hd⟩ := hlive hex
      split at h
      · next data hdata =>
        cases h
        refine ⟨fun hr => absurd hr hm, fun _ => ⟨?_, ?_, hc', hd⟩⟩
        · exact fetched_set _ s.pcs i _ ha (fun d hd' => by cases hd'; exact hdata)
        · simpa [P1.sendOrder] using hb
      · cases h
        exact ⟨fun hr => absurd hr hm, fun hx => by cases hx⟩
    · cases h
  | send i =>
    simp only [P1.step] at h
    split at h
    · next hc =>
      obtain ⟨hex, hm, _⟩ := hc
      obtain ⟨ha, hb, hc', hd⟩ := hlive hex
      split at h
      · next data hpc =>
        split at h
        · cases h
          exact ⟨fun hr => absurd hr hm, fun hx => by cases hx⟩
        · cases h
          refine ⟨fun hr => absurd hr hm, fun _ => ⟨?_, ?_, hc', hd⟩⟩
          · exact fetched_set _ s.pcs i _ ha (fun d hd' => by cases hd')
          · have hdata : P1.dataOf net urls i = data := by
              simp [P1.dataOf, ha i data hpc]
            simp only [P1.sendOrder, List.map_append, List.flatten_append, List.map_cons,
              List.map_nil, List.flatten_cons, List.flatten_nil, List.append_nil, hdata,
              ← hb, List.append_assoc]
      · cases h
    · cases h
  | release i =>
    simp only [P1.step] at h
    split at h
    · next hc =>
      obtain ⟨hex, hm, _, _⟩ := hc
      obtain ⟨ha, hb, hc', hd⟩ := hlive hex
      cases h
      refine ⟨fun hr => absurd hr hm, fun _ => ⟨?_, ?_, hc', hd⟩⟩
      · exact fetched_set _ s.pcs i _ ha (fun d hd' => by cases hd')
      · simpa [P1.sendOrder] using hb
    · cases h
  | wgDone i =>
    simp only [P1.step] at h
    split at h
    · next hc =>
      obtain ⟨hex, hm, _⟩ := hc
      obtain ⟨ha, hb, hc', hd⟩ := hlive hex
      cases h
      refine ⟨fun hr => absurd hr hm, fun _ => ⟨?_, ?_, hc', hd⟩⟩
      · exact fetched_set _ s.pcs i _ ha (fun d hd' => by cases hd')
      · simpa [P1.sendOrder] using hb
    · cases h
  | create =>
    simp only [P1.step] at h
    split at h
    · next hc =>
      obtain ⟨hex, hm, _⟩ := hc
      obtain ⟨ha, hb, hc', hd⟩ := hlive hex
      split at h
      · cases h
        exact ⟨fun hr => (by simp [hm] at hr), fun hx => (by cases hx)⟩
      · cases h
        refine ⟨fun hr => (by cases hr), fun _ => ⟨ha, ?_, fun hl => (by cases hl), fun _ => rfl⟩⟩
        rw [hc' hm] at hb
        simpa [P1.sendOrder] using hb
    · cases h
  | closeChan =>
    simp only [P1.step] at h
    split at h
    · next hc =>
      obtain ⟨hex, hm, _⟩ := hc
      obtain ⟨ha, hb, hc', hd⟩ := hlive hex
      cases h
      refine ⟨fun hr => absurd hr hm, fun _ => ⟨ha, ?_, hc', hd⟩⟩
      simpa [P1.sendOrder] using hb
    · cases h
  | receive =>
    simp only [P1.step] at h
    split at h
    · next hc =>
      obtain ⟨hex, hm⟩ := hc
      obtain ⟨ha, hb, hc', hd⟩ := hlive hex
      split at h
      · cases h
      · next data rest hch =>
        split at h
        · cases h
          exact ⟨fun hr => (by simp [hm] at hr), fun hx => (by cases hx)⟩
        · cases h
          refine ⟨fun hr => (by simp [hm] at hr), fun _ => ⟨ha, ?_,
            fun hl => (by simp [hm] at hl), fun _ => rfl⟩⟩
          rw [hch] at hb
          simpa [P1.sendOrder] using hb
    · cases h
  | finish =>
    simp only [P1.step] at h
    split at h
    · next hc =>
      obtain ⟨hex, hm, _, hempty⟩ := hc
      obtain ⟨ha, hb, hc', hd⟩ := hlive hex
      cases h
      refine ⟨fun _ => ⟨hex, hempty⟩, fun _ => ⟨ha, ?_, fun hl => (by cases hl), fun _ => ?_⟩⟩
      · simpa [P1.sendOrder] using hb
      · exact hd (by simp [hm])
    · cases h

theorem P1.sendOrder_cons (e : P1.Event) (rest : List P1.Event) :
    P1.sendOrder (e :: rest) = P1.sendOrder [e] ++ P1.sendOrder rest := by
  cases e <;> simp [P1.sendOrder]

theorem P1.run_outputInv (net : Net) (cf wf : Bool) (urls : List GoString) :
    ∀ (evs : List P1.Event) (s s' : P1.State) (sent : List Nat),
      P1.run net cf wf urls s evs = some s' → P1.outputInv net urls sent s →
      P1.outputInv net urls (sent ++ P1.sendOrder evs) s' := by
  intro evs
  induction evs with
  | nil =>
    intro s s' sent h hinv
    simp only [P1.run, Option.some.injEq] at h
    subst h
    simpa [P1.sendOrder] using hinv
  | cons e rest ih =>
    intro s s' sent h hinv
    simp only [P1.run] at h
    cases hs : P1.step net cf wf urls s e with
    | none => simp [hs] at h
    | some s1 =>
      simp only [hs] at h
      have := ih s1 s' _ h (P1.step_outputInv net cf wf urls s s1 e sent hs hinv)
      rwa [List.append_assoc, ← P1.sendOrder_cons] at this

theorem P1.init_outputInv (net : Net) (urls : List GoString) (n : Nat) :
    P1.outputInv net urls [] (P1.init n) := by
  refine ⟨fun hr => (by cases hr), fun _ => ⟨?_, rfl, fun _ => rfl, fun hl => absurd rfl hl⟩⟩
  intro i d h
  simp only [P1.init] at h
  rw [List.getElem?_replicate] at h
  split at h <;> cases h

/-- A run of pyonerip.go that ends with `main` returning has written to
`output.ts` the data of the goroutines in the order of their sends. -/
theorem P1.output_of_returned (net : Net) (cf wf : Bool) (urls : List GoString)
    (evs : List P1.Event) (s : P1.State)
    (hrun : P1.run net cf wf urls (P1.init urls.length) evs = some s)
    (hret : s.mainPc = .returned) :
    s.output = some ((P1.sendOrder evs).map (P1.dataOf net urls)).flatten := by
  have hinv := P1.run_outputInv net cf wf urls evs _ s [] hrun (P1.init_outputInv net urls _)
  obtain ⟨h1, h2⟩ := hinv
  obtain ⟨hex, hempty⟩ := h1 hret
  obtain ⟨_, hb, _, hd⟩ := h2 hex
  obtain ⟨w, hw⟩ := Option.isSome_iff_exists.mp (hd (by simp [hret]))
  rw [hw, hempty] at hb
  simp only [Option.getD_some, List.flatten_nil, List.append_nil, List.nil_append] at hb
  rw [hw, hb]

/-- C7 (counterexample): two runs of pyonerip.go on the same two URLs with
the same payloads `0` and `1`, all downloads succeeding. In the first run
goroutine 0 sends first and `output.ts` holds `0 1`; in the second goroutine 1
sends first and `output.ts` holds `1 0`. -/
theorem pyonerip_output_depends_on_send_order :
    P1.run (exampleNet 2) false false (exampleUrls 2) (P1.init (exampleUrls 2).length)
      (P1.sequentialSchedule 0 1) = some (P1.finalState [0, 1]) ∧
    P1.run (exampleNet 2) false false (exampleUrls 2) (P1.init (exampleUrls 2).length)
      (P1.sequentialSchedule 1 0) = some (P1.finalState [1, 0]) ∧
    (P1.finalState [0, 1]).output ≠ (P1.finalState [1, 0]).output := by
  refine ⟨by decide, by decide, by decide⟩

/-- C7 (as amended): in pyonerip.go the output is fixed by the payloads and
the order of the sends on `dataChan`. Any two runs on the same URLs and
payloads in which `main` returns, so that all downloads succeeded, and in
which the goroutines send on `dataChan` in the same order, write
byte-identical content to `output.ts`: the data of the goroutines in the
order of their sends. -/
theorem pyonerip_same_send_order_same_output (net : Net) (cf1 wf1 cf2 wf2 : Bool)
    (urls : List GoString) (evs1 evs2 : List P1.Event) (s1 s2 : P1.State)
    (hrun1 : P1.run net cf1 wf1 urls (P1.init urls.length) evs1 = some s1)
    (hrun2 : P1.run net cf2 wf2 urls (P1.init urls.length) evs2 = some s2)
    (hret1 : s1.mainPc = .returned) (hret2 : s2.mainPc = .returned)
    (hsame : P1.sendOrder evs1 = P1.sendOrder evs2) :
    s1.output = s2.output ∧
    s1.output = some ((P1.sendOrder evs1).map (P1.dataOf net urls)).flatten := by
  have h1 := P1.output_of_returned net cf1 wf1 urls evs1 s1 hrun1 hret1
  have h2 := P1.output_of_returned net cf2 wf2 urls evs2 s2 hrun2 hret2
  rw [← hsame] at h2
  exact ⟨h1.trans h2.symm, h1⟩

/-- The hypotheses of C7 (as amended) hold for two runs on two URLs, one with
the downloads one after the other and one with overlapping downloads, in both
of which goroutine 0 sends first. -/
theorem pyonerip_same_send_order_same_output_witness :
    (P1.finalState [0, 1]).output = (P1.finalState [0, 1]).output ∧
    (P1.finalState [0, 1]).output =
      some ((P1.sendOrder (P1.sequentialSchedule 0 1)).map
        (P1.dataOf (exampleNet 2) (exampleUrls 2))).flatten :=
  pyonerip_same_send_order_same_output (exampleNet 2) false false false false (exampleUrls 2)
    (P1.sequentialSchedule 0 1) P1.overlappingSchedule (P1.finalState [0, 1])
    (P1.finalState [0, 1]) (by decide) (by decide) rfl rfl (by decide)

/-! ## pyonerip4.go: `main` -/

/-- C8 (the code at the failing input): `main` of pyonerip4.go on its three
URLs, all downloads succeeding. `close(filenameCh)` stands inside the loop.
If no download has finished by then, `mergeFiles` is called on the empty list
in the first iteration and `main` panics in the second, closing the closed
channel, with the third goroutine never launched. If the first download
finishes before the first close, `mergeFiles` gets the one filename
`file1.ts`, and the second iteration panics as before. If the first download
finishes after the first close, the goroutine panics sending on the closed
channel. -/
theorem pyonerip4_main_closes_channel_in_loop :
    (P4.run 2 (exampleNet 3) (exampleUrls 3) (P4.init emptyFS)
      [.main, .main, .main, .main, .main]).map P4.Outcome.summary =
        some (.closePanic 1 [[]] [0, 1]) ∧
    (P4.run 2 (exampleNet 3) (exampleUrls 3) (P4.init emptyFS)
      [.main, .worker 0, .main, .main, .main, .main]).map P4.Outcome.summary =
        some (.closePanic 1 [[ascii "file1.ts"]] [1]) ∧
    (P4.run 2 (exampleNet 3) (exampleUrls 3) (P4.init emptyFS)
      [.main, .main, .worker 0]).map P4.Outcome.summary = some (.sendPanic 0 []) := by
  refine ⟨by decide, by decide, by decide⟩

theorem P4.step_early (fuel : Nat) (net : Net) (fileUrls : List GoString) (s : P4.State)
    (e : P4.Event) (o : P4.Outcome) (h2 : 2 ≤ fileUrls.length)
    (hs : P4.step fuel net fileUrls s e = some o) (he : P4.early s) :
    o.isCompleted = false ∧ ∀ s1, o = .running s1 → P4.early s1 := by
  cases e with
  | main =>
    simp only [P4.step] at hs
    split at hs
    · next hph =>
      split at hs
      · cases hs
        refine ⟨rfl, fun s1 h1 => ?_⟩
        cases h1
        rcases he with ⟨h0, _⟩ | ⟨h1', hc, _⟩
        · exact Or.inl ⟨h0, fun h => by cases h⟩
        · exact Or.inr ⟨h1', hc, fun h => by cases h⟩
      · next hlt =>
        exfalso
        rcases he with ⟨h0, _⟩ | ⟨h1', _, _⟩ <;> omega
    · next hph =>
      split at hs
      · cases hs
        exact ⟨rfl, fun s1 h1 => by cases h1⟩
      · next hcl =>
        cases hs
        refine ⟨rfl, fun s1 h1 => ?_⟩
        cases h1
        rcases he with ⟨h0, _⟩ | ⟨_, hc, _⟩
        · exact Or.inl ⟨h0, fun _ => rfl⟩
        · exact absurd hc hcl
    · next hph =>
      have hnext : s.next = 0 ∧ s.closed = true := by
        rcases he with ⟨h0, hc⟩ | ⟨_, _, hne⟩
        · exact ⟨h0, hc hph⟩
        · exact absurd hph hne
      split at hs
      · cases hs
      · cases hs
        exact ⟨rfl, fun s1 h1 => by cases h1⟩
      · cases hs
        refine ⟨rfl, fun s1 h1 => ?_⟩
        cases h1
        exact Or.inr ⟨by simp [hnext.1], hnext.2, fun h => by cases h⟩
  | worker i =>
    simp only [P4.step] at hs
    split at hs
    · split at hs
      · cases hs
      · cases hs
        refine ⟨rfl, fun s1 h1 => ?_⟩
        cases h1
        exact he
      · split at hs
        · cases hs
          exact ⟨rfl, fun s1 h1 => by cases h1⟩
        · cases hs
          refine ⟨rfl, fun s1 h1 => ?_⟩
          cases h1
          exact he
    · cases hs

/-- With two or more URLs, no schedule lets `main` of pyonerip4.go run to its
normal end: every run that ends, ends in a panic or in an error of
`mergeFiles`. -/
theorem P4.run_never_completes (fuel : Nat) (net : Net) (fileUrls : List GoString)
    (h2 : 2 ≤ fileUrls.length) :
    ∀ (evs : List P4.Event) (s : P4.State) (o : P4.Outcome), P4.early s →
      P4.run fuel net fileUrls s evs = some o →
      o.isCompleted = false ∧ ∀ s1, o = .running s1 → P4.early s1 := by
  intro evs
  induction evs with
  | nil =>
    intro s o he h
    simp only [P4.run, Option.some.injEq] at h
    subst h
    exact ⟨rfl, fun s1 h1 => by cases h1; exact he⟩
  | cons e rest ih =>
    intro s o he h
    simp only [P4.run] at h
    split at h
    · next s1 hstep =>
      exact ih s1 o ((P4.step_early fuel net fileUrls s e _ h2 hstep he).2 s1 rfl) h
    · next other hne =>
      cases hstep : P4.step fuel net fileUrls s e with
      | none => rw [hstep] at h; cases h
      | some o' =>
        rw [hstep] at h
        cases h
        exact P4.step_early fuel net fileUrls s e o h2 hstep he

/-! ## pyonerip2.go -/

theorem P2.work_done_indep (net : Net) (writeFails : Bool) (outfile : Bytes) (url : GoString) :
    (P2.work net writeFails outfile url).2 = (P2.work net writeFails [] url).2 := by
  unfold P2.work
  cases net url with
  | requestError => rfl
  | sendError => rfl
  | body d e => dsimp only; split <;> (try rfl); split <;> rfl

/-- The calls on the wait group in pyonerip2.go: one `wg.Add(1)` for every
URL, one `wg.Done()` for every URL whose download succeeds. -/
theorem P2.foldl_counts (net : Net) (writeFails : Bool) :
    ∀ (urls : List GoString) (st : P2.State),
      (urls.foldl
        (fun st url =>
          { adds := st.adds + 1
            dones := st.dones + (if (P2.work net writeFails st.outfile url).2 then 1 else 0)
            outfile := (P2.work net writeFails st.outfile url).1 : P2.State }) st).adds =
        st.adds + urls.length ∧
      (urls.foldl
        (fun st url =>
          { adds := st.adds + 1
            dones := st.dones + (if (P2.work net writeFails st.outfile url).2 then 1 else 0)
            outfile := (P2.work net writeFails st.outfile url).1 : P2.State }) st).dones =
        st.dones + urls.countP (fun u => (P2.work net writeFails [] u).2) := by
  intro urls
  induction urls with
  | nil => intro st; simp
  | cons u rest ih =>
    intro st
    simp only [List.foldl_cons, List.length_cons, List.countP_cons]
    obtain ⟨h1, h2⟩ := ih
      { adds := st.adds + 1
        dones := st.dones + (if (P2.work net writeFails st.outfile u).2 then 1 else 0)
        outfile := (P2.work net writeFails st.outfile u).1 }
    rw [h1, h2]
    dsimp only
    rw [P2.work_done_indep net writeFails st.outfile u]
    constructor <;> omega

/-- C9 (the code at the failing input): one segment URL in the playlist. When
`http.Get` fails, and when `io.Copy` fails, the worker goes on to the next URL
by `continue` without `wg.Done()`: one `wg.Add(1)`, no `wg.Done()`, the
counter stays at 1 and `wg.Wait()` does not return. When the download
succeeds `wg.Done()` is called and `wg.Wait()` returns. -/
theorem pyonerip2_failed_download_skips_done :
    P2.main (fun _ => .sendError) false [ascii "https://example.com/seg1.ts"] =
      { adds := 1, dones := 0, outfile := [] } ∧
    P2.waitReturns (P2.main (fun _ => .sendError) false
      [ascii "https://example.com/seg1.ts"]) = false ∧
    P2.main (fun _ => .body [7] true) false [ascii "https://example.com/seg1.ts"] =
      { adds := 1, dones := 0, outfile := [7] } ∧
    P2.waitReturns (P2.main (fun _ => .body [7] true) false
      [ascii "https://example.com/seg1.ts"]) = false ∧
    P2.main (fun _ => .body [7] false) false [ascii "https://example.com/seg1.ts"] =
      { adds := 1, dones := 1, outfile := [7] } ∧
    P2.waitReturns (P2.main (fun _ => .body [7] false) false
      [ascii "https://example.com/seg1.ts"]) = true := by
  refine ⟨by decide, by decide, by decide, by decide, by decide, by decide⟩

end Pyonerip
